import Mathlib

/-!
Verification development of `main.go` of hdfc-st.

A shallow embedding of the parse / filter / aggregate pipeline of `main.go`.

Modelling conventions
* A Go `string` is modelled by the list of its Unicode code points (`Str`); the input is taken
  to be valid UTF-8, on which splitting at `,` or `/` and substring search agree with the
  byte-level operations of the Go library.
* A Go call that can end in a run-time panic returns `Res.panic`; an `error` return value is
  `Res.err`.
* `time.Time` values are the midnight-UTC instants produced by `time.Parse "02/01/2006"`, kept
  as year, month, day; the zero `time.Time` is 1 January of year 1.
* `float64` is modelled bit-exactly on its values (sign, 53-bit significand, exponent), with
  round-to-nearest-even arithmetic; a single NaN stands for all NaN payloads.
-/

namespace HdfcSt

/-- A Go string, as its sequence of code points. -/
abbrev Str := List Char

/-- Outcome of a Go call: a value, an `error` value, or a run-time panic. -/
inductive Res (ε α : Type) where
  | ok : α → Res ε α
  | err : ε → Res ε α
  | panic : Res ε α
  deriving DecidableEq, Repr

/-! ## Library functions on strings -/

/-- Go `strings.Split s sep` for a one-character separator: the result always has at least one
field, and `n` separators give `n + 1` fields. -/
def splitOn (sep : Char) : Str → List Str
  | [] => [[]]
  | c :: cs =>
    if c = sep then [] :: splitOn sep cs
    else
      match splitOn sep cs with
      | [] => [[c]]
      | f :: fs => (c :: f) :: fs

/-- Go `unicode.IsSpace`. -/
def isSpace (c : Char) : Bool :=
  let n := c.toNat
  (9 ≤ n && n ≤ 13) || n = 32 || n = 0x85 || n = 0xA0 || n = 0x1680 ||
  (0x2000 ≤ n && n ≤ 0x200a) || n = 0x2028 || n = 0x2029 || n = 0x202f ||
  n = 0x205f || n = 0x3000

/-- Drop the leading white space. -/
def trimLeft : Str → Str
  | [] => []
  | c :: cs => if isSpace c then trimLeft cs else c :: cs

/-- Go `strings.TrimSpace`. -/
def trimSpace (s : Str) : Str :=
  (trimLeft (trimLeft s).reverse).reverse

/-- Whether `p` starts `s`. -/
def hasPrefix : Str → Str → Bool
  | _, [] => true
  | [], _ :: _ => false
  | c :: cs, d :: ds => c == d && hasPrefix cs ds

/-- Go `strings.Contains s sub`. -/
def contains : Str → Str → Bool
  | [], sub => hasPrefix [] sub
  | c :: cs, sub => hasPrefix (c :: cs) sub || contains cs sub

/-- Upper-case mapping of one code point, on the ASCII letters. -/
def upperChar (c : Char) : Char :=
  if 97 ≤ c.toNat ∧ c.toNat ≤ 122 then Char.ofNat (c.toNat - 32) else c

/-- Go `strings.ToUpper`, on ASCII letters; other code points are kept as they are (the Go
library also maps the non-ASCII letters through the Unicode case tables). -/
def toUpper (s : Str) : Str := s.map upperChar

/-- Go `isDigit`: an ASCII decimal digit. -/
def isDigit (c : Char) : Bool := 48 ≤ c.toNat && c.toNat ≤ 57

/-- Value of a decimal digit character. -/
def digitVal (c : Char) : Nat := c.toNat - 48

/-- The character of a decimal digit. -/
def digitChar (d : Nat) : Char := Char.ofNat (48 + d % 10)

/-- Decimal digits of `n`, most significant first, prepended to `acc`. -/
def natDigitsAux : Nat → Nat → Str → Str
  | 0, _, acc => acc
  | fuel + 1, n, acc =>
    if n / 10 = 0 then digitChar n :: acc
    else natDigitsAux fuel (n / 10) (digitChar n :: acc)

/-- Decimal rendering of a natural number. -/
def natDigits (n : Nat) : Str := natDigitsAux (n + 1) n []

/-! ## `time.Time` and `time.Parse "02/01/2006"` -/

/-- A `time.Time` at midnight UTC. -/
structure Time where
  year : Nat
  month : Nat
  day : Nat
  deriving DecidableEq, Repr

namespace Time

/-- The zero value `time.Time{}`: 1 January of year 1, 00:00:00 UTC. -/
def zero : Time := ⟨1, 1, 1⟩

/-- Go `Time.IsZero`. -/
def IsZero (t : Time) : Bool := t.year == 1 && t.month == 1 && t.day == 1

/-- Go `Time.Equal`. -/
def Equal (t u : Time) : Bool := t.year == u.year && t.month == u.month && t.day == u.day

/-- Go `Time.After`: `t` is a later instant than `u`. -/
def After (t u : Time) : Bool :=
  decide (u.year < t.year) ||
  (t.year == u.year && (decide (u.month < t.month) ||
    (t.month == u.month && decide (u.day < t.day))))

/-- Go `Time.Before`: `t` is an earlier instant than `u`. -/
def Before (t u : Time) : Bool := After u t

end Time

/-- Go `isLeap`. -/
def isLeap (year : Nat) : Bool := year % 4 == 0 && (year % 100 != 0 || year % 400 == 0)

/-- Go `daysIn`: the number of days of a month of a year. -/
def daysIn (month year : Nat) : Nat :=
  if month = 2 then (if isLeap year then 29 else 28)
  else if month = 4 ∨ month = 6 ∨ month = 9 ∨ month = 11 then 30
  else 31

/-- Go `getnum s true`: exactly two decimal digits at the start of `s`. -/
def getnum2 : Str → Option (Nat × Str)
  | a :: b :: rest =>
    if isDigit a && isDigit b then some (digitVal a * 10 + digitVal b, rest) else none
  | _ => none

/-- The four-digit year of layout element `2006`. -/
def getYear : Str → Option (Nat × Str)
  | a :: b :: c :: d :: rest =>
    if isDigit a && isDigit b && isDigit c && isDigit d then
      some (digitVal a * 1000 + digitVal b * 100 + digitVal c * 10 + digitVal d, rest)
    else none
  | _ => none

/-- Skip the literal `/` of the layout. -/
def skipSlash : Str → Option Str
  | c :: rest => if c = '/' then some rest else none
  | [] => none

/-- Go `time.Parse "02/01/2006" s`: two-digit day, `/`, two-digit month, `/`, four-digit year and
nothing after it; the month must be 1..12 and the day must exist in that month. `none` is the
`*time.ParseError` result. -/
def timeParse (s : Str) : Option Time :=
  match getnum2 s with
  | none => none
  | some (day, s1) =>
    match skipSlash s1 with
    | none => none
    | some s2 =>
      match getnum2 s2 with
      | none => none
      | some (month, s3) =>
        if month = 0 ∨ 12 < month then none
        else
          match skipSlash s3 with
          | none => none
          | some s4 =>
            match getYear s4 with
            | none => none
            | some (year, s5) =>
              if s5 ≠ [] then none
              else if day < 1 ∨ daysIn month year < day then none
              else some ⟨year, month, day⟩

/-! ## `float64` -/

/-- A `float64` value. `fin neg m e` is `(-1)^neg * m * 2^e` with `m < 2^53`,
`-1074 ≤ e ≤ 971`, and `e = -1074` whenever `m < 2^52` (zero is `m = 0`). -/
inductive F64 where
  | nan : F64
  | inf (neg : Bool) : F64
  | fin (neg : Bool) (m : Nat) (e : Int) : F64
  deriving DecidableEq, Repr

namespace F64

/-- Positive zero, the initial value of a `float64` variable. -/
def zero : F64 := fin false 0 (-1074)

/-- The fraction `num / den` that equals `n / (d * 2^e)`. -/
def scale (n d : Nat) (e : Int) : Nat × Nat :=
  match e with
  | Int.ofNat k => (n, d * 2 ^ k)
  | Int.negSucc k => (n * 2 ^ (k + 1), d)

/-- The integer nearest to `num / den`, ties to even. -/
def roundEvenDiv (num den : Nat) : Nat :=
  let q := num / den
  let r := num % den
  if 2 * r < den then q
  else if den < 2 * r then q + 1
  else if q % 2 = 0 then q else q + 1

/-- Number of binary digits of `n` added to `acc`, by halving at most `fuel` times. -/
def bitLenAux : Nat → Nat → Nat → Nat
  | 0, _, acc => acc
  | fuel + 1, n, acc => if n = 0 then acc else bitLenAux fuel (n / 2) (acc + 1)

/-- Number of binary digits of `n` (`0` for `0`). -/
def bitLen (n : Nat) : Nat := bitLenAux n n 0

/-- The exponent `e` of the binade of `n / d`: `2^52 ≤ n / (d * 2^e) < 2^53`, but at least
`-1074` (the subnormal exponent). -/
def expOf (n d : Nat) : Int :=
  let l : Int := (bitLen n : Int) - (bitLen d : Int)
  let p := scale n d l
  let fl : Int := if p.2 ≤ p.1 then l else l - 1
  max (fl - 52) (-1074)

/-- Round the non-negative rational `n / d` to the nearest `float64` (ties to even), with the
given sign; the flag tells an overflow to infinity. -/
def round (neg : Bool) (n d : Nat) : F64 × Bool :=
  if n = 0 then (fin neg 0 (-1074), false)
  else
    let e := expOf n d
    let p := scale n d e
    let m := roundEvenDiv p.1 p.2
    let m1 := if m = 2 ^ 53 then 2 ^ 52 else m
    let e1 := if m = 2 ^ 53 then e + 1 else e
    if 971 < e1 then (inf neg, true) else (fin neg m1 e1, false)

/-- The signed integer `(-1)^neg * m`. -/
def signed (neg : Bool) (m : Nat) : Int := if neg then -(m : Int) else (m : Int)

/-- IEEE 754 addition, round to nearest even. -/
def add : F64 → F64 → F64
  | nan, _ => nan
  | _, nan => nan
  | inf a, inf b => if a = b then inf a else nan
  | inf a, fin _ _ _ => inf a
  | fin _ _ _, inf b => inf b
  | fin s1 m1 e1, fin s2 m2 e2 =>
    let e := min e1 e2
    let sum : Int := signed s1 (m1 * 2 ^ (e1 - e).toNat) + signed s2 (m2 * 2 ^ (e2 - e).toNat)
    if sum = 0 then fin (s1 && s2) 0 (-1074)
    else
      let p := scale sum.natAbs 1 (-e)
      (round (decide (sum < 0)) p.1 p.2).1

/-- Sign change. -/
def neg : F64 → F64
  | nan => nan
  | inf s => inf (!s)
  | fin s m e => fin (!s) m e

/-- IEEE 754 subtraction. -/
def sub (a b : F64) : F64 := add a (neg b)

/-- Go `math.Abs`. -/
def abs : F64 → F64
  | nan => nan
  | inf _ => inf false
  | fin _ m e => fin false m e

/-- The comparison `x < 0`. -/
def ltZero : F64 → Bool
  | nan => false
  | inf s => s
  | fin s m _ => s && m != 0

/-- The exact value of a small natural number. -/
def ofNat (n : Nat) : F64 := (round false n 1).1

end F64

/-- Go `strconv.FormatFloat f 'f' 2 64`: the exact value rounded to two decimals, ties to
even. -/
def float64ToString : F64 → Str
  | F64.nan => "NaN".toList
  | F64.inf false => "+Inf".toList
  | F64.inf true => "-Inf".toList
  | F64.fin s m e =>
    let p := F64.scale (m * 100) 1 (-e)
    let n := F64.roundEvenDiv p.1 p.2
    (if s then ['-'] else []) ++ natDigits (n / 100) ++
      ['.', digitChar (n / 10), digitChar n]

/-! ## `strconv.ParseFloat s 64` -/

/-- The two `strconv.NumError` kinds. -/
inductive NumErr where
  /-- The value `strconv.ErrSyntax`. -/
  | errSyntax
  /-- The value `strconv.ErrRange`. -/
  | errRange
  deriving DecidableEq, Repr

/-- Go `lower` on the letters that matter here: the ASCII lower-case form. -/
def lowerChar (c : Char) : Char :=
  if 65 ≤ c.toNat ∧ c.toNat ≤ 90 then Char.ofNat (c.toNat + 32) else c

/-- Go `commonPrefixLenIgnoreCase s pre` (`pre` is lower case). -/
def commonPrefixLenIgnoreCase : Str → Str → Nat
  | c :: cs, p :: ps => if lowerChar c = p then commonPrefixLenIgnoreCase cs ps + 1 else 0
  | _, _ => 0

/-- The `inf` / `infinity` branch of Go `special`, after the optional sign. -/
def specialInf (neg : Bool) (nsign : Nat) (s : Str) : Option (F64 × Nat) :=
  let n := commonPrefixLenIgnoreCase s "infinity".toList
  let n := if 3 < n ∧ n < 8 then 3 else n
  if n = 3 ∨ n = 8 then some (F64.inf neg, nsign + n) else none

/-- Go `special`: the value and the number of characters read for `inf`, `infinity`
(optionally signed) and `nan`, in any letter case. -/
def special : Str → Option (F64 × Nat)
  | [] => none
  | c :: cs =>
    if c = '+' then specialInf false 1 cs
    else if c = '-' then specialInf true 1 cs
    else if c = 'i' ∨ c = 'I' then specialInf false 0 (c :: cs)
    else if c = 'n' ∨ c = 'N' then
      (if commonPrefixLenIgnoreCase (c :: cs) "nan".toList = 3 then some (F64.nan, 3) else none)
    else none

/-- Whether `c` is one of the letters `a`..`f`, `A`..`F`. -/
def isHexLetter (c : Char) : Bool :=
  (97 ≤ c.toNat && c.toNat ≤ 102) || (65 ≤ c.toNat && c.toNat ≤ 70)

/-- Value of a hexadecimal letter digit. -/
def hexLetterVal (c : Char) : Nat := (lowerChar c).toNat - 97 + 10

/-- The state of the digit loop of Go `readFloat`. `mant` holds the value of all `nd`
significant digits (Go keeps the first 19 and a truncation flag, and rounds from the full
digit string in its slow path). -/
structure Digits where
  mant : Nat
  nd : Nat
  dp : Int
  sawdot : Bool
  sawdigits : Bool
  underscores : Bool
  deriving DecidableEq, Repr

/-- The digit loop of Go `readFloat`: reads digits, one `.` and underscores, and stops at the
first other character; returns the state and the unread rest. -/
def readDigits (hex : Bool) : Digits → Str → Digits × Str
  | st, [] => (st, [])
  | st, c :: cs =>
    if c = '_' then readDigits hex { st with underscores := true } cs
    else if c = '.' then
      if st.sawdot then (st, c :: cs)
      else readDigits hex { st with sawdot := true, dp := st.nd } cs
    else if isDigit c then
      if c = '0' ∧ st.nd = 0 then
        readDigits hex { st with sawdigits := true, dp := st.dp - 1 } cs
      else
        readDigits hex { st with sawdigits := true, nd := st.nd + 1,
                                 mant := st.mant * (if hex then 16 else 10) + digitVal c } cs
    else if hex && isHexLetter c then
      readDigits hex { st with sawdigits := true, nd := st.nd + 1,
                               mant := st.mant * 16 + hexLetterVal c } cs
    else (st, c :: cs)

/-- The exponent digit loop of Go `readFloat`: digits and underscores, the value capped as in
the source (`if e < 10000 { e = e*10 + digit }`). -/
def readExpDigits : Nat → Bool → Str → Nat × Bool × Str
  | e, u, [] => (e, u, [])
  | e, u, c :: cs =>
    if c = '_' then readExpDigits e true cs
    else if isDigit c then readExpDigits (if e < 10000 then e * 10 + digitVal c else e) u cs
    else (e, u, c :: cs)

/-- The number loop of Go `underscoreOK`; `saw` is the class of the last character. -/
def underscoreLoop (hex : Bool) : Char → Str → Bool
  | saw, [] => saw != '_'
  | saw, c :: cs =>
    if isDigit c || (hex && isHexLetter c) then underscoreLoop hex '0' cs
    else if c = '_' then (if saw != '0' then false else underscoreLoop hex '_' cs)
    else if saw = '_' then false
    else underscoreLoop hex '!' cs

/-- The base-prefix step of Go `underscoreOK`, after the optional sign. -/
def underscorePrefix : Str → Bool
  | a :: b :: rest =>
    if a = '0' ∧ (lowerChar b = 'b' ∨ lowerChar b = 'o' ∨ lowerChar b = 'x') then
      underscoreLoop (lowerChar b = 'x') '0' rest
    else underscoreLoop false '^' (a :: b :: rest)
  | s => underscoreLoop false '^' s

/-- Go `underscoreOK`: underscores only between digits (or after a base prefix). -/
def underscoreOK : Str → Bool
  | c :: cs => if c = '-' ∨ c = '+' then underscorePrefix cs else underscorePrefix (c :: cs)
  | [] => underscorePrefix []

/-- What Go `readFloat` returns on success: sign, digits, the exponent of the base (10, or 2
for a hexadecimal mantissa) to apply to `mant`, and the unread rest. -/
structure ReadFloat where
  neg : Bool
  hex : Bool
  mant : Nat
  exp : Int
  underscores : Bool
  rest : Str
  deriving DecidableEq, Repr

/-- The optional exponent part of Go `readFloat`: `e` (or `p` for hexadecimal), an optional
sign and at least one digit; a hexadecimal mantissa must have an exponent. -/
def readExponent (neg hex : Bool) (d : Digits) (dp : Int) (rest : Str) : Option ReadFloat :=
  let scaleOf (dp : Int) : Int := dp - (if hex then 4 * (d.nd : Int) else (d.nd : Int))
  match rest with
  | c :: cs =>
    if lowerChar c = (if hex then 'p' else 'e') then
      match cs with
      | [] => none
      | s :: ds =>
        let esign : Int := if s = '-' then -1 else 1
        let body : Str := if s = '+' ∨ s = '-' then ds else s :: ds
        match body with
        | [] => none
        | b :: _ =>
          if !isDigit b then none
          else
            let r := readExpDigits 0 d.underscores body
            some ⟨neg, hex, d.mant, scaleOf (dp + (r.1 : Int) * esign), r.2.1, r.2.2⟩
    else if hex then none
    else some ⟨neg, hex, d.mant, scaleOf dp, d.underscores, rest⟩
  | [] =>
    if hex then none else some ⟨neg, hex, d.mant, scaleOf dp, d.underscores, []⟩

/-- The mantissa part of Go `readFloat`, after the optional sign: the optional `0x` prefix
(only when something follows it) and the digit loop. -/
def readMantissa (neg : Bool) (s : Str) : Option ReadFloat :=
  let hex : Bool :=
    match s with
    | a :: b :: _ :: _ => a = '0' ∧ lowerChar b = 'x'
    | _ => false
  let body := if hex then s.drop 2 else s
  let r := readDigits hex ⟨0, 0, 0, false, false, false⟩ body
  let d := r.1
  if !d.sawdigits then none
  else
    let dp : Int := if d.sawdot then d.dp else (d.nd : Int)
    readExponent neg hex d (if hex then dp * 4 else dp) r.2

/-- Go `readFloat`: `none` when the text does not start with a number. -/
def readFloat : Str → Option ReadFloat
  | [] => none
  | c :: cs =>
    if c = '+' then readMantissa false cs
    else if c = '-' then readMantissa true cs
    else readMantissa false (c :: cs)

/-- The correctly rounded `float64` of `mant * base^exp` (base 10, or 2 for a hexadecimal
mantissa), with the overflow flag. -/
def floatOfRead (r : ReadFloat) : F64 × Bool :=
  let b : Nat := if r.hex then 2 else 10
  match r.exp with
  | Int.ofNat k => F64.round r.neg (r.mant * b ^ k) 1
  | Int.negSucc k => F64.round r.neg r.mant (b ^ (k + 1))

/-- Go `strconv.ParseFloat s 64`: the special values, else a decimal or hexadecimal
floating-point literal that must span the whole text; the value is rounded to the nearest
`float64`, and an overflow is the range error. -/
def parseFloat (s : Str) : Except NumErr F64 :=
  match special s with
  | some (v, n) => if n = s.length then .ok v else .error .errSyntax
  | none =>
    match readFloat s with
    | none => .error .errSyntax
    | some r =>
      if r.underscores && !underscoreOK (s.take (s.length - r.rest.length)) then .error .errSyntax
      else if r.rest ≠ [] then .error .errSyntax
      else
        let v := floatOfRead r
        if v.2 then .error .errRange else .ok v.1

/-- The UTF-8 bytes of one code point. -/
def utf8Char (c : Char) : List Nat :=
  let n := c.toNat
  if n < 0x80 then [n]
  else if n < 0x800 then [0xC0 + n / 64, 0x80 + n % 64]
  else if n < 0x10000 then [0xE0 + n / 4096, 0x80 + n / 64 % 64, 0x80 + n % 64]
  else [0xF0 + n / 262144, 0x80 + n / 4096 % 64, 0x80 + n / 64 % 64, 0x80 + n % 64]

/-- The bytes of a Go string. -/
def utf8 : Str → List Nat
  | [] => []
  | c :: cs => utf8Char c ++ utf8 cs

/-- Go slice expression `s[:n]` on a string: the first `n` bytes, a run-time panic (`none`)
when the string has fewer than `n` bytes. -/
def sliceTo (s : Str) (n : Nat) : Option (List Nat) :=
  if (utf8 s).length < n then none else some ((utf8 s).take n)

/-! ## The program: `main.go` -/

/-- The constant `DESCRIPTION_MAX_LEN`. -/
def DESCRIPTION_MAX_LEN : Nat := 15

/-- The type `config`. -/
structure config where
  file : Str
  descriptions : List Str
  deb : Bool
  cred : Bool
  net : Bool
  fromDate : Time
  toDate : Time
  onDate : Time
  exclude : List Str
  deriving DecidableEq, Repr

/-- The zero value `var cfg config`. -/
def config.init : config :=
  { file := [], descriptions := [], deb := false, cred := false, net := false,
    fromDate := Time.zero, toDate := Time.zero, onDate := Time.zero, exclude := [] }

/-- The type `statement`. -/
structure statement where
  Date : Time
  DateFmt : Str
  Description : Str
  Debit : F64
  Credit : F64
  deriving DecidableEq, Repr

/-- The `error` values that `getStatement` returns. -/
inductive Err where
  /-- The value `errors.New "error parsing statement file"`. -/
  | parsingStatementFile
  /-- A `*time.ParseError` of `time.Parse`. -/
  | time
  /-- A `*strconv.NumError` of `strconv.ParseFloat`. -/
  | num (e : NumErr)
  deriving DecidableEq, Repr

/-- Source function `fixDate`: splits at `/` and formats `tokens[0]/tokens[1]/20tokens[2]`.
Indexing `tokens[1]` or `tokens[2]` panics (`none`) when there are fewer than three tokens. -/
def fixDate (d : Str) : Option Str :=
  match splitOn '/' d with
  | t0 :: t1 :: t2 :: _ => some (t0 ++ '/' :: t1 ++ '/' :: '2' :: '0' :: t2)
  | _ => none

/-- Source function `getStatement`. -/
def getStatement (line : Str) : Res Err statement :=
  let tokens := splitOn ',' line
  if tokens.length < 6 then .err .parsingStatementFile
  else
    match fixDate (trimSpace (tokens.getD 0 [])) with
    | none => .panic
    | some dateFmt =>
      match fixDate (trimSpace (tokens.getD 0 [])) with
      | none => .panic
      | some fixed =>
        match timeParse fixed with
        | none => .err .time
        | some date =>
          let description := trimSpace (tokens.getD 1 [])
          match parseFloat (trimSpace (tokens.getD 3 [])) with
          | .error e => .err (.num e)
          | .ok debit =>
            match parseFloat (trimSpace (tokens.getD 4 [])) with
            | .error e => .err (.num e)
            | .ok credit =>
              .ok { DateFmt := dateFmt, Date := date, Description := description,
                    Debit := debit, Credit := credit }

/-- Source function `matchDescription`. -/
def matchDescription : List Str → Str → Bool
  | [], _ => false
  | v :: vs, description =>
    if contains description v then true else matchDescription vs description

/-- Source method `config.filterStatement`. -/
def config.filterStatement (cfg : config) (st : statement) : Bool :=
  if cfg.descriptions.length != 0 && !matchDescription cfg.descriptions st.Description then false
  else if cfg.exclude.length != 0 && matchDescription cfg.exclude st.Description then false
  else if !cfg.onDate.IsZero && !st.Date.Equal cfg.onDate then false
  else if !cfg.fromDate.IsZero && (!st.Date.Equal cfg.fromDate && !st.Date.After cfg.fromDate)
    then false
  else if !cfg.toDate.IsZero && (!st.Date.Equal cfg.toDate && !st.Date.Before cfg.toDate)
    then false
  else true

/-- Source function `calculateNetFmt`. -/
def calculateNetFmt (debt credit : F64) : Str :=
  let net := F64.sub debt credit
  if F64.ltZero net then '+' :: float64ToString (F64.abs net)
  else '-' :: float64ToString net

/-! ### Command-line options -/

/-- One option setting of the command line, in the order given. -/
inductive Flag where
  | f (value : Str)
  | cred (value : Bool)
  | deb (value : Bool)
  | net (value : Bool)
  | d (value : Str)
  | x (value : Str)
  | on (value : Str)
  | fromD (value : Str)
  | to (value : Str)
  deriving DecidableEq, Repr

/-- The errors that an option callback returns; `flag.Parse` then stops the program. -/
inductive FlagErr where
  /-- A `*time.ParseError` of the option value. -/
  | time
  /-- The value `errors.New "cannot use -from along with -on"`. -/
  | fromWithOn
  /-- The value `errors.New "cannot use -to along with -on"`. -/
  | toWithOn
  deriving DecidableEq, Repr

/-- The pieces that the `-d` and `-x` callbacks append: the value split at commas, each piece
trimmed and upper-cased. -/
def optionEntries (value : Str) : List Str :=
  (splitOn ',' value).map fun v => toUpper (trimSpace v)

/-- The effect of one option on the configuration: the `flag.*Var` assignments and the
`flag.Func` callbacks of `main`. -/
def applyFlag (cfg : config) : Flag → Except FlagErr config
  | .f v => .ok { cfg with file := v }
  | .cred b => .ok { cfg with cred := b }
  | .deb b => .ok { cfg with deb := b }
  | .net b => .ok { cfg with net := b }
  | .d v => .ok { cfg with descriptions := cfg.descriptions ++ optionEntries v }
  | .x v => .ok { cfg with exclude := cfg.exclude ++ optionEntries v }
  | .on v =>
    match timeParse v with
    | some date => .ok { cfg with onDate := date }
    | none => .error .time
  | .fromD v =>
    if !cfg.onDate.IsZero then .error .fromWithOn
    else
      match timeParse v with
      | some date => .ok { cfg with fromDate := date }
      | none => .error .time
  | .to v =>
    if !cfg.onDate.IsZero then .error .toWithOn
    else
      match timeParse v with
      | some date => .ok { cfg with toDate := date }
      | none => .error .time

/-- The call `flag.Parse` over the option settings, left to right; the first callback error
ends it. -/
def parseFlags : config → List Flag → Except FlagErr config
  | cfg, [] => .ok cfg
  | cfg, fl :: fls =>
    match applyFlag cfg fl with
    | .ok cfg1 => parseFlags cfg1 fls
    | .error e => .error e

/-! ### The scan loop of `main` -/

/-- One row appended to the table: date, the first `DESCRIPTION_MAX_LEN` bytes of the
description, debit and credit. -/
structure Row where
  date : Str
  description : List Nat
  debit : Str
  credit : Str
  deriving DecidableEq, Repr

/-- The variables of `main` that the scan loop updates. -/
structure Scan where
  foundHeader : Bool
  foundStart : Bool
  count : Nat
  credit : F64
  debit : F64
  rows : List Row
  errors : List Err
  deriving DecidableEq, Repr

/-- The state before the first line. -/
def Scan.init : Scan :=
  { foundHeader := false, foundStart := false, count := 0, credit := F64.zero,
    debit := F64.zero, rows := [], errors := [] }

/-- One iteration of the loop `for scanner.Scan()`; `none` is a run-time panic. -/
def step (cfg : config) (s : Scan) (line : Str) : Option Scan :=
  if !s.foundHeader && !s.foundStart && contains line "Date".toList then
    some { s with foundHeader := true }
  else if !s.foundHeader && !s.foundStart && line == [] then some s
  else
    match getStatement line with
    | .panic => none
    | .err e => some { s with errors := s.errors ++ [e] }
    | .ok st =>
      let s1 := { s with foundStart := true }
      if !cfg.filterStatement st then some s1
      else
        let s2 := { s1 with count := s1.count + 1, credit := F64.add s1.credit st.Credit,
                            debit := F64.add s1.debit st.Debit }
        if cfg.cred || cfg.deb || cfg.net then some s2
        else
          match sliceTo st.Description DESCRIPTION_MAX_LEN with
          | none => none
          | some desc =>
            some { s2 with rows := s2.rows ++
              [⟨st.DateFmt, desc, float64ToString st.Debit, float64ToString st.Credit⟩] }

/-- The whole loop over the lines of the input. -/
def scan (cfg : config) : Scan → List Str → Option Scan
  | s, [] => some s
  | s, line :: rest =>
    match step cfg s line with
    | none => none
    | some s1 => scan cfg s1 rest

/-- What `main` does after the loop. -/
inductive Output where
  /-- The message `No match found!` and `os.Exit 1`. -/
  | noMatch
  /-- One summary number (`-deb`, `-cred` or `-net`). -/
  | summary (text : Str)
  /-- The rows and the footer `NET`, net, debit, credit. -/
  | table (rows : List Row) (footer : List Str)
  deriving DecidableEq, Repr

/-- The end of `main`, from the state after the loop. -/
def finish (cfg : config) (s : Scan) : Output :=
  if s.count = 0 then .noMatch
  else if cfg.deb then .summary (float64ToString s.debit)
  else if cfg.cred then .summary (float64ToString s.credit)
  else if cfg.net then .summary (float64ToString (F64.abs (F64.sub s.debit s.credit)))
  else .table s.rows ["NET".toList, calculateNetFmt s.debit s.credit,
                      float64ToString s.debit, float64ToString s.credit]

/-- The run of `main` on the input lines: `none` is a run-time panic. -/
def run (cfg : config) (lines : List Str) : Option Output :=
  (scan cfg Scan.init lines).map (finish cfg)

/-! ### The scan loop as a fold -/

/-- The lines that the loop sends to `getStatement`; `seeking` tells that neither the header
nor a first statement was found yet. While seeking, the first line containing `Date` and
the empty lines are not sent. -/
def sent : Bool → List Str → List Str
  | false, lines => lines
  | true, [] => []
  | true, l :: ls =>
    if contains l "Date".toList then ls
    else if l == [] then sent true ls
    else
      match getStatement l with
      | .ok _ => l :: ls
      | _ => l :: sent true ls

/-- The lines of an input that are sent to `getStatement`. -/
def sentLines (lines : List Str) : List Str := sent true lines

/-- The transaction of a line that parses and passes the filter. -/
def accepted (cfg : config) (line : Str) : Option statement :=
  match getStatement line with
  | .ok st => if cfg.filterStatement st then some st else none
  | _ => none

/-- The transactions of the lines that parse and pass the filter, in input order. -/
def included (cfg : config) (lines : List Str) : List statement :=
  lines.filterMap (accepted cfg)

/-- Whether the loop iteration on a line that is sent to `getStatement` panics: inside
`fixDate`, or in the slice `st.Description[:DESCRIPTION_MAX_LEN]` of a row. -/
def panics (cfg : config) (line : Str) : Bool :=
  match getStatement line with
  | .panic => true
  | .err _ => false
  | .ok st =>
    cfg.filterStatement st && !(cfg.cred || cfg.deb || cfg.net) &&
      (sliceTo st.Description DESCRIPTION_MAX_LEN).isNone

/-- The `float64` sum as the loop computes it: from the left, each addition rounded. -/
def sumFrom (z : F64) (xs : List F64) : F64 := xs.foldl F64.add z

/-- Whether the loop still seeks the header in state `s`. -/
def seeking (s : Scan) : Bool := !s.foundHeader && !s.foundStart

/-! ### The loop body and its observable result -/

/-- The loop body after the header test, from `line := scanner.Text()` on: the line is sent
to `getStatement`. -/
def process (cfg : config) (s : Scan) (line : Str) : Option Scan :=
  match getStatement line with
  | .panic => none
  | .err e => some { s with errors := s.errors ++ [e] }
  | .ok st =>
    let s1 := { s with foundStart := true }
    if !cfg.filterStatement st then some s1
    else
      let s2 := { s1 with count := s1.count + 1, credit := F64.add s1.credit st.Credit,
                          debit := F64.add s1.debit st.Debit }
      if cfg.cred || cfg.deb || cfg.net then some s2
      else
        match sliceTo st.Description DESCRIPTION_MAX_LEN with
        | none => none
        | some desc =>
          some { s2 with rows := s2.rows ++
            [⟨st.DateFmt, desc, float64ToString st.Debit, float64ToString st.Credit⟩] }

/-- The match count, the totals and the emitted rows of a loop state. -/
def Scan.result (s : Scan) : Nat × F64 × F64 × List Row :=
  (s.count, s.debit, s.credit, s.rows)

/-! ### Notions used to state the claims on amounts -/

/-- A non-empty run of decimal digits. -/
def allDigits (s : Str) : Bool := !s.isEmpty && s.all isDigit

/-- Digits with an optional fractional part: `digits` or `digits.digits`. -/
def isDecimalBody (s : Str) : Bool :=
  match splitOn '.' s with
  | [a] => allDigits a
  | [a, b] => allDigits a && allDigits b
  | _ => false

/-- A decimal number in the sense of the specification: an optional sign, digits, and an
optional fractional part. -/
def isDecimalNumber : Str → Bool
  | [] => false
  | c :: cs => if c = '+' ∨ c = '-' then isDecimalBody cs else isDecimalBody (c :: cs)

/-- The sign bit of a `float64` (taken as clear for NaN). -/
def F64.signBit : F64 → Bool
  | .nan => false
  | .inf s => s
  | .fin s _ _ => s

/-- The comparison `x >= 0`. -/
def F64.geZero : F64 → Bool
  | .nan => false
  | .inf s => !s
  | .fin s m _ => !s || m == 0

/-- Whether the text begins with a minus sign. -/
def startsWithMinus : Str → Bool
  | c :: _ => c == '-'
  | [] => false

/-! ### Decimal numbers and their `float64` -/

/-- The number that a run of decimal digits denotes. -/
def natOfDigits (s : Str) : Nat := s.foldl (fun a c => a * 10 + digitVal c) 0

/-- The text after its optional sign. -/
def unsigned : Str → Str
  | [] => []
  | c :: cs => if c = '+' ∨ c = '-' then cs else c :: cs

/-- The `float64` nearest to the decimal number `s` (ties to even), with the flag that tells
that the number is beyond the `float64` range: the digits of `s` without the point, over the
power of ten of the number of fractional digits, with the sign of `s`. -/
def decimalFloat (s : Str) : F64 × Bool :=
  match splitOn '.' (unsigned s) with
  | [a, b] => F64.round (startsWithMinus s) (natOfDigits (a ++ b)) (10 ^ b.length)
  | _ => F64.round (startsWithMinus s) (natOfDigits (unsigned s)) 1

/-! ### The effect of the header search -/

/-- Whether the header search that the loop makes on `D` itself is without effect on the
match count, the totals and the rows. The search skips the first line containing `Date` that
it meets before any line that parses; the skip is without effect when that line, sent to
`getStatement`, would neither pass the filter nor panic, or when a later line panics, which
ends the run whether the line was skipped or not. -/
def headerSkipNeutral (cfg : config) : List Str → Bool
  | [] => true
  | l :: ls =>
    if contains l "Date".toList then
      ((accepted cfg l).isNone && !panics cfg l) || ls.any (panics cfg)
    else if l == [] then headerSkipNeutral cfg ls
    else
      match getStatement l with
      | .err _ => headerSkipNeutral cfg ls
      | _ => true

/-! ## Lemmas on the string functions -/

theorem hasPrefix_iff (s p : Str) : hasPrefix s p = true ↔ p <+: s := by
  induction s generalizing p with
  | nil => cases p <;> simp [hasPrefix]
  | cons c cs ih =>
    cases p with
    | nil => simp [hasPrefix]
    | cons d ds =>
      simp only [hasPrefix, Bool.and_eq_true, beq_iff_eq, ih, List.cons_prefix_cons]
      constructor
      · rintro ⟨h, h2⟩; exact ⟨h.symm, h2⟩
      · rintro ⟨h, h2⟩; exact ⟨h.symm, h2⟩

theorem contains_iff (s sub : Str) : contains s sub = true ↔ sub <:+: s := by
  induction s with
  | nil => simp [contains, hasPrefix_iff]
  | cons c cs ih =>
    simp only [contains, Bool.or_eq_true, hasPrefix_iff, ih]
    exact (List.infix_cons_iff).symm

theorem matchDescription_iff (vs : List Str) (d : Str) :
    matchDescription vs d = true ↔ ∃ v ∈ vs, v <:+: d := by
  induction vs with
  | nil => simp [matchDescription]
  | cons v vs ih =>
    by_cases h : contains d v = true
    · simp [matchDescription, h, (contains_iff d v).1 h]
    · have h2 : ¬ v <:+: d := fun hc => h ((contains_iff d v).2 hc)
      simp [matchDescription, h, ih, h2]

theorem Time.Equal_iff (t u : Time) : t.Equal u = true ↔ t = u := by
  cases t; cases u; simp [Time.Equal, and_assoc]

theorem splitOn_of_not_mem (sep : Char) (s : Str) (h : sep ∉ s) : splitOn sep s = [s] := by
  induction s with
  | nil => rfl
  | cons c cs ih =>
    have hc : c ≠ sep := fun e => h (by simp [e])
    have hcs : sep ∉ cs := fun e => h (by simp [e])
    simp [splitOn, hc, ih hcs]

theorem splitOn_append (sep : Char) (s rest : Str) (h : sep ∉ s) :
    splitOn sep (s ++ sep :: rest) = s :: splitOn sep rest := by
  induction s with
  | nil => simp [splitOn]
  | cons c cs ih =>
    have hc : c ≠ sep := fun e => h (by simp [e])
    have hcs : sep ∉ cs := fun e => h (by simp [e])
    simp [splitOn, hc, ih hcs]

/-- The result of `filterStatement` as the conjunction of its five tests. -/
theorem filterStatement_iff (cfg : config) (st : statement) :
    cfg.filterStatement st = true ↔
      ((cfg.descriptions = [] ∨ ∃ v ∈ cfg.descriptions, v <:+: st.Description) ∧
       (∀ v ∈ cfg.exclude, ¬ v <:+: st.Description) ∧
       (cfg.onDate.IsZero = true ∨ st.Date = cfg.onDate) ∧
       (cfg.fromDate.IsZero = true ∨ st.Date = cfg.fromDate ∨
          st.Date.After cfg.fromDate = true) ∧
       (cfg.toDate.IsZero = true ∨ st.Date = cfg.toDate ∨
          st.Date.Before cfg.toDate = true)) := by
  have hx : (∀ v ∈ cfg.exclude, ¬ v <:+: st.Description) ↔
      matchDescription cfg.exclude st.Description = false := by
    rw [← Bool.not_eq_true, matchDescription_iff]; simp
  have hx0 : (cfg.exclude.length != 0 && matchDescription cfg.exclude st.Description) =
      matchDescription cfg.exclude st.Description := by
    cases h : cfg.exclude <;> simp [matchDescription]
  have hd : cfg.descriptions = [] ↔ (cfg.descriptions.length != 0) = false := by
    cases h : cfg.descriptions <;> simp
  unfold config.filterStatement
  rw [hx0, hx, hd, ← matchDescription_iff, ← Time.Equal_iff, ← Time.Equal_iff, ← Time.Equal_iff]
  generalize (cfg.descriptions.length != 0) = a
  generalize matchDescription cfg.descriptions st.Description = b
  generalize matchDescription cfg.exclude st.Description = c
  generalize cfg.onDate.IsZero = d
  generalize st.Date.Equal cfg.onDate = e
  generalize cfg.fromDate.IsZero = f
  generalize st.Date.Equal cfg.fromDate = g
  generalize st.Date.After cfg.fromDate = h
  generalize cfg.toDate.IsZero = i
  generalize st.Date.Equal cfg.toDate = j
  generalize st.Date.Before cfg.toDate = k
  cases a <;> cases b <;> cases c <;> cases d <;> cases e <;> cases f <;> cases g <;>
    cases h <;> cases i <;> cases j <;> cases k <;> decide

/-! ## The claims -/

/-- C1: `filterStatement` returns true exactly when all five conditions hold: the include list
is empty or some include entry is a substring of the description; no exclude entry is a
substring of the description; `onDate` is unset or equals the transaction date; `fromDate` is
unset or the transaction date is equal to or after it; `toDate` is unset or the transaction
date is equal to or before it. -/
theorem C1_filterStatement_iff (cfg : config) (st : statement) :
    cfg.filterStatement st = true ↔
      ((cfg.descriptions = [] ∨ ∃ v ∈ cfg.descriptions, v <:+: st.Description) ∧
       (∀ v ∈ cfg.exclude, ¬ v <:+: st.Description) ∧
       (cfg.onDate.IsZero = true ∨ st.Date = cfg.onDate) ∧
       (cfg.fromDate.IsZero = true ∨ st.Date = cfg.fromDate ∨
          st.Date.After cfg.fromDate = true) ∧
       (cfg.toDate.IsZero = true ∨ st.Date = cfg.toDate ∨
          st.Date.Before cfg.toDate = true)) :=
  filterStatement_iff cfg st

theorem isDigit_ne_slash (c : Char) (h : isDigit c = true) : c ≠ '/' := by
  rintro rfl
  revert h
  decide

/-- A line with at least six comma-separated fields, whose trimmed field 0 is a valid
`DD/MM/YY` date and whose trimmed fields 3 and 4 are read by `strconv.ParseFloat`, gives the
transaction made of the trimmed field 1, the two values read, `DD/MM/20YY` and that date. -/
theorem getStatement_ok_of_parse (line f0 f1 f2 f3 f4 f5 : Str) (rest : List Str)
    (d1 d2 m1 m2 y1 y2 : Char) (debit credit : F64)
    (hsplit : splitOn ',' line = f0 :: f1 :: f2 :: f3 :: f4 :: f5 :: rest)
    (hdate : trimSpace f0 = [d1, d2, '/', m1, m2, '/', y1, y2])
    (hd1 : isDigit d1 = true) (hd2 : isDigit d2 = true)
    (hm1 : isDigit m1 = true) (hm2 : isDigit m2 = true)
    (hy1 : isDigit y1 = true) (hy2 : isDigit y2 = true)
    (hmonth : 1 ≤ digitVal m1 * 10 + digitVal m2 ∧ digitVal m1 * 10 + digitVal m2 ≤ 12)
    (hday : 1 ≤ digitVal d1 * 10 + digitVal d2 ∧
      digitVal d1 * 10 + digitVal d2 ≤
        daysIn (digitVal m1 * 10 + digitVal m2) (2000 + (digitVal y1 * 10 + digitVal y2)))
    (hdebit : parseFloat (trimSpace f3) = .ok debit)
    (hcredit : parseFloat (trimSpace f4) = .ok credit) :
    getStatement line = .ok
      { Date := ⟨2000 + (digitVal y1 * 10 + digitVal y2), digitVal m1 * 10 + digitVal m2,
                 digitVal d1 * 10 + digitVal d2⟩,
        DateFmt := [d1, d2, '/', m1, m2, '/', '2', '0', y1, y2],
        Description := trimSpace f1,
        Debit := debit,
        Credit := credit } := by
  have hfix : fixDate [d1, d2, '/', m1, m2, '/', y1, y2] =
      some [d1, d2, '/', m1, m2, '/', '2', '0', y1, y2] := by
    simp [fixDate, splitOn, isDigit_ne_slash _ hd1, isDigit_ne_slash _ hd2,
      isDigit_ne_slash _ hm1, isDigit_ne_slash _ hm2, isDigit_ne_slash _ hy1,
      isDigit_ne_slash _ hy2]
  have h2 : isDigit '2' = true := by decide
  have h0 : isDigit '0' = true := by decide
  have hv2 : digitVal '2' = 2 := by decide
  have hv0 : digitVal '0' = 0 := by decide
  have hyear : digitVal '2' * 1000 + digitVal '0' * 100 + digitVal y1 * 10 + digitVal y2
      = 2000 + (digitVal y1 * 10 + digitVal y2) := by
    rw [hv2, hv0]; omega
  have hparse : timeParse [d1, d2, '/', m1, m2, '/', '2', '0', y1, y2] =
      some ⟨2000 + (digitVal y1 * 10 + digitVal y2), digitVal m1 * 10 + digitVal m2,
            digitVal d1 * 10 + digitVal d2⟩ := by
    have hmn : ¬ (digitVal m1 * 10 + digitVal m2 = 0 ∨ 12 < digitVal m1 * 10 + digitVal m2) := by
      omega
    have hdn : ¬ (digitVal d1 * 10 + digitVal d2 < 1 ∨
        daysIn (digitVal m1 * 10 + digitVal m2) (2000 + (digitVal y1 * 10 + digitVal y2))
          < digitVal d1 * 10 + digitVal d2) := by
      omega
    simp only [timeParse, getnum2, skipSlash, getYear, hd1, hd2, hm1, hm2, hy1, hy2, h2, h0,
      Bool.and_self, if_true, hmn, if_false, hyear, hdn, ne_eq, not_true_eq_false]
  simp only [getStatement, hsplit, List.length_cons, List.getD_cons_zero, List.getD_cons_succ,
    hdate, hfix, hparse, hdebit, hcredit]
  simp

/-- C3: a line that splits at commas into fewer than six fields gives the error
`error parsing statement file` and no transaction, whatever the fields hold. -/
theorem C3_getStatement_short (line : Str) (h : (splitOn ',' line).length < 6) :
    getStatement line = .err .parsingStatementFile := by
  simp [getStatement, h]

/-- C3 at the empty line and at a five-field line with an unparsable date token. -/
theorem C3_getStatement_short_witness :
    getStatement [] = .err .parsingStatementFile ∧
    getStatement "xx-yy,AMAZON,x,1.00,0.00".toList = .err .parsingStatementFile :=
  ⟨C3_getStatement_short [] (by decide),
   C3_getStatement_short "xx-yy,AMAZON,x,1.00,0.00".toList (by decide)⟩

/-- C4: on a line with six fields whose date token has fewer than three slash-separated parts
(an empty date field, or `05-03-23`), `getStatement` ends in a run-time panic inside `fixDate`,
not in an error value; `fixDate` is not total. -/
theorem C4_getStatement_panics :
    fixDate [] = none ∧ fixDate "05-03-23".toList = none ∧
    getStatement ",AMAZON,x,1.00,0.00,y".toList = .panic ∧
    getStatement "05-03-23,AMAZON,x,1.00,0.00,y".toList = .panic := by
  decide

/-- C5: for a date token with three slash-separated parts `DD`, `MM`, `YY`, `fixDate` returns
`DD/MM/20YY`: day and month unchanged, the year part prefixed with the literal `20` whatever
it is. -/
theorem C5_fixDate (dd mm yy : Str) (hd : '/' ∉ dd) (hm : '/' ∉ mm) (hy : '/' ∉ yy) :
    fixDate (dd ++ '/' :: (mm ++ '/' :: yy)) = some (dd ++ '/' :: (mm ++ '/' :: '2' :: '0' :: yy)) := by
  simp [fixDate, splitOn_append _ _ _ hd, splitOn_append _ _ _ hm, splitOn_of_not_mem _ _ hy]

/-- C5 at the token `05/03/23`, and at the year part `99` (no century roll-over). -/
theorem C5_fixDate_witness :
    fixDate "05/03/23".toList = some "05/03/2023".toList ∧
    fixDate "31/12/99".toList = some "31/12/2099".toList :=
  ⟨C5_fixDate "05".toList "03".toList "23".toList (by decide) (by decide) (by decide),
   C5_fixDate "31".toList "12".toList "99".toList (by decide) (by decide) (by decide)⟩

/-- C6: the option value `amazon` is stored as the entry `AMAZON`, and the parsed description
`Amazon Purchase` is compared as it is, never upper-cased: the entry is a substring of the
upper-cased description, yet `matchDescription` and `filterStatement` reject the transaction. -/
theorem C6_description_not_upper_cased :
    parseFlags config.init [.d "amazon".toList] =
      .ok { config.init with descriptions := ["AMAZON".toList] } ∧
    getStatement "05/03/23, Amazon Purchase, x, 150.00, 0.00, y".toList = .ok
      { Date := ⟨2023, 3, 5⟩, DateFmt := "05/03/2023".toList,
        Description := "Amazon Purchase".toList,
        Debit := F64.fin false 5277655813324800 (-45), Credit := F64.zero } ∧
    contains (toUpper "Amazon Purchase".toList) "AMAZON".toList = true ∧
    matchDescription ["AMAZON".toList] "Amazon Purchase".toList = false ∧
    config.filterStatement { config.init with descriptions := ["AMAZON".toList] }
      { Date := ⟨2023, 3, 5⟩, DateFmt := "05/03/2023".toList,
        Description := "Amazon Purchase".toList,
        Debit := F64.fin false 5277655813324800 (-45), Credit := F64.zero } = false := by
  refine ⟨rfl, by decide, by decide, by decide, by decide⟩

/-- C7, as stated, fails: with the include list `A`, adding the include entry `B` makes
`filterStatement` accept a transaction described `B` that it rejected before. -/
theorem C7_counterexample :
    config.filterStatement { config.init with descriptions := ["A".toList] ++ ["B".toList] }
      ⟨⟨2023, 3, 5⟩, "05/03/2023".toList, "B".toList, F64.zero, F64.zero⟩ = true ∧
    config.filterStatement { config.init with descriptions := ["A".toList] }
      ⟨⟨2023, 3, 5⟩, "05/03/2023".toList, "B".toList, F64.zero, F64.zero⟩ = false := by
  decide

/-- C7, amended: a transaction accepted after adding one more exclude entry, after setting a
date bound (`onDate`, `fromDate`, `toDate`) that was unset, or after adding an include entry to
an empty include list, was accepted before. -/
theorem C7_filter_monotone (c : config) (st : statement) :
    (∀ e : Str, c.descriptions = [] →
      config.filterStatement { c with descriptions := c.descriptions ++ [e] } st = true →
      c.filterStatement st = true) ∧
    (∀ e : Str,
      config.filterStatement { c with exclude := c.exclude ++ [e] } st = true →
      c.filterStatement st = true) ∧
    (∀ t : Time, c.onDate.IsZero = true →
      config.filterStatement { c with onDate := t } st = true → c.filterStatement st = true) ∧
    (∀ t : Time, c.fromDate.IsZero = true →
      config.filterStatement { c with fromDate := t } st = true → c.filterStatement st = true) ∧
    (∀ t : Time, c.toDate.IsZero = true →
      config.filterStatement { c with toDate := t } st = true → c.filterStatement st = true) := by
  refine ⟨?_, ?_, ?_, ?_, ?_⟩
  · intro e he h
    rw [filterStatement_iff] at h ⊢
    exact ⟨Or.inl he, h.2⟩
  · intro e h
    rw [filterStatement_iff] at h ⊢
    refine ⟨h.1, ?_, h.2.2⟩
    intro v hv
    exact h.2.1 v (List.mem_append_left _ hv)
  · intro t ht h
    rw [filterStatement_iff] at h ⊢
    exact ⟨h.1, h.2.1, Or.inl ht, h.2.2.2⟩
  · intro t ht h
    rw [filterStatement_iff] at h ⊢
    exact ⟨h.1, h.2.1, h.2.2.1, Or.inl ht, h.2.2.2.2⟩
  · intro t ht h
    rw [filterStatement_iff] at h ⊢
    exact ⟨h.1, h.2.1, h.2.2.1, h.2.2.2.1, Or.inl ht⟩

/-- C7, amended, at the criteria with include entry `AMAZON`: the transaction accepted with
the added exclude entry `FUEL` is accepted without it. -/
theorem C7_filter_monotone_witness :
    config.filterStatement { config.init with descriptions := ["AMAZON".toList] }
      ⟨⟨2023, 3, 5⟩, "05/03/2023".toList, "AMAZON PURCHASE".toList, F64.zero, F64.zero⟩ = true :=
  (C7_filter_monotone { config.init with descriptions := ["AMAZON".toList] }
    ⟨⟨2023, 3, 5⟩, "05/03/2023".toList, "AMAZON PURCHASE".toList, F64.zero, F64.zero⟩).2.1
    "FUEL".toList (by decide)

/-- C8: the `-on` callback has no test of `fromDate` or `toDate`: with `-from` (or `-to`)
given before `-on`, `flag.Parse` succeeds and the configuration has `onDate` set together with
`fromDate` (or `toDate`); only the order `-on` first is refused. -/
theorem C8_on_after_from_accepted :
    parseFlags config.init [.fromD "01/01/2023".toList, .on "02/01/2023".toList] =
      .ok { config.init with fromDate := ⟨2023, 1, 1⟩, onDate := ⟨2023, 1, 2⟩ } ∧
    parseFlags config.init [.to "01/01/2023".toList, .on "02/01/2023".toList] =
      .ok { config.init with toDate := ⟨2023, 1, 1⟩, onDate := ⟨2023, 1, 2⟩ } ∧
    Time.IsZero ⟨2023, 1, 1⟩ = false ∧ Time.IsZero ⟨2023, 1, 2⟩ = false ∧
    parseFlags config.init [.on "02/01/2023".toList, .fromD "01/01/2023".toList] =
      .error .fromWithOn ∧
    parseFlags config.init [.on "02/01/2023".toList, .to "01/01/2023".toList] =
      .error .toWithOn := by
  refine ⟨rfl, rfl, rfl, rfl, rfl, rfl⟩

theorem sent_subset (b : Bool) (lines : List Str) : ∀ l ∈ sent b lines, l ∈ lines := by
  induction lines with
  | nil => cases b <;> simp [sent]
  | cons x xs ih =>
    cases b with
    | false => simp [sent]
    | true =>
      intro l hl
      simp only [sent] at hl
      split_ifs at hl with h1 h2
      · exact List.mem_cons_of_mem _ hl
      · exact List.mem_cons_of_mem _ (ih l hl)
      · split at hl
        · exact hl
        · rcases List.mem_cons.1 hl with h | h
          · exact h ▸ List.mem_cons_self _ _
          · exact List.mem_cons_of_mem _ (ih l h)

theorem sent_false (lines : List Str) : sent false lines = lines := by
  cases lines <;> rfl

theorem included_cons (cfg : config) (l : Str) (ls : List Str) :
    included cfg (l :: ls) = included cfg [l] ++ included cfg ls := by
  simp only [included, List.filterMap_cons, List.filterMap_nil]
  cases accepted cfg l <;> simp

theorem sumFrom_append (z : F64) (xs ys : List F64) :
    sumFrom z (xs ++ ys) = sumFrom (sumFrom z xs) ys := by
  simp [sumFrom, List.foldl_append]

/-- One iteration on a line that the header test does not skip and that does not panic. -/
theorem step_sent (cfg : config) (s : Scan) (l : Str)
    (hskip : (seeking s && (contains l "Date".toList || l == [])) = false)
    (hp : panics cfg l = false) :
    ∃ s1, step cfg s l = some s1 ∧
      s1.count = s.count + (included cfg [l]).length ∧
      s1.debit = sumFrom s.debit ((included cfg [l]).map (·.Debit)) ∧
      s1.credit = sumFrom s.credit ((included cfg [l]).map (·.Credit)) ∧
      s1.foundHeader = s.foundHeader ∧
      s1.foundStart = (s.foundStart || (match getStatement l with | .ok _ => true | _ => false)) := by
  have h1 : (!s.foundHeader && !s.foundStart && contains l "Date".toList) = false := by
    simp only [seeking] at hskip
    revert hskip
    cases s.foundHeader <;> cases s.foundStart <;> cases contains l "Date".toList <;> simp
  have h2 : (!s.foundHeader && !s.foundStart && l == []) = false := by
    simp only [seeking] at hskip
    revert hskip
    cases s.foundHeader <;> cases s.foundStart <;> cases contains l "Date".toList <;>
      cases (l == []) <;> simp
  simp only [step, h1, h2, Bool.false_eq_true, if_false]
  simp only [panics] at hp
  cases hg : getStatement l with
  | panic => simp [hg] at hp
  | err e => simp [included, accepted, hg, sumFrom]
  | ok st =>
    simp only [hg] at hp
    by_cases hf : cfg.filterStatement st = true
    · by_cases hm : (cfg.cred || cfg.deb || cfg.net) = true
      · simp [included, accepted, hg, hf, hm, sumFrom]
      · cases hsl : sliceTo st.Description DESCRIPTION_MAX_LEN with
        | none => simp [hf, hm, hsl] at hp
        | some desc => simp [included, accepted, hg, hf, hm, hsl, sumFrom]
    · simp [included, accepted, hg, hf, sumFrom]

/-- The loop from any state: the count and the totals grow by the transactions of the lines
sent to `getStatement` that parse and pass the filter. -/
theorem scan_spec (cfg : config) (lines : List Str) (s : Scan)
    (h : ∀ l ∈ sent (seeking s) lines, panics cfg l = false) :
    ∃ s1, scan cfg s lines = some s1 ∧
      s1.count = s.count + (included cfg (sent (seeking s) lines)).length ∧
      s1.debit = sumFrom s.debit ((included cfg (sent (seeking s) lines)).map (·.Debit)) ∧
      s1.credit = sumFrom s.credit ((included cfg (sent (seeking s) lines)).map (·.Credit)) := by
  induction lines generalizing s with
  | nil =>
    refine ⟨s, rfl, ?_, ?_, ?_⟩ <;> cases seeking s <;> simp [sent, included, sumFrom]
  | cons l ls ih =>
    by_cases hskip : (seeking s && (contains l "Date".toList || l == [])) = true
    · -- the line is skipped
      have hsk : seeking s = true := by
        revert hskip; cases seeking s <;> simp
      by_cases hd : contains l "Date".toList = true
      · have hd2 : contains l ['D', 'a', 't', 'e'] = true := hd
        have hstep : step cfg s l = some { s with foundHeader := true } := by
          have : (!s.foundHeader && !s.foundStart) = true := hsk
          simp [step, this, hd2]
        have hsent : sent (seeking s) (l :: ls) = ls := by simp [hsk, sent, hd2]
        have hnext : seeking { s with foundHeader := true } = false := by simp [seeking]
        rw [hsent] at h ⊢
        obtain ⟨s1, h1, h2, h3, h4⟩ := ih { s with foundHeader := true }
          (by rw [hnext, sent_false]; exact h)
        rw [hnext, sent_false] at h2 h3 h4
        exact ⟨s1, by simp [scan, hstep, h1], h2, h3, h4⟩
      · have hd2 : contains l ['D', 'a', 't', 'e'] = false := by simpa using hd
        have hd3 : contains l "Date".toList = false := by simpa using hd
        have hb : (l == []) = true := by
          rw [hsk, hd3] at hskip; simpa using hskip
        have hstep : step cfg s l = some s := by
          have : (!s.foundHeader && !s.foundStart) = true := hsk
          simp [step, this, hd2, hb]
        have hsent : sent (seeking s) (l :: ls) = sent (seeking s) ls := by
          simp [hsk, sent, hd2, hb]
        rw [hsent] at h ⊢
        obtain ⟨s1, h1, h2, h3, h4⟩ := ih s h
        exact ⟨s1, by simp [scan, hstep, h1], h2, h3, h4⟩
    · -- the line is sent
      have hskip2 : (seeking s && (contains l "Date".toList || l == [])) = false := by
        simpa using hskip
      have hsent : ∃ b, sent (seeking s) (l :: ls) = l :: sent b ls ∧
          b = (seeking s && !(match getStatement l with | .ok _ => true | _ => false)) := by
        cases hsk : seeking s with
        | false => exact ⟨false, by rw [sent_false, sent_false], by simp⟩
        | true =>
          rw [hsk] at hskip2
          have hd : contains l "Date".toList = false := by
            revert hskip2; cases contains l "Date".toList <;> simp
          have hb : (l == []) = false := by
            revert hskip2; cases (l == []) <;> simp [hd]
          have hd2 : contains l ['D', 'a', 't', 'e'] = false := hd
          cases hg : getStatement l with
          | ok st => exact ⟨false, by simp [sent, hd2, hb, hg, sent_false], by simp⟩
          | err e => exact ⟨true, by simp [sent, hd2, hb, hg], by simp⟩
          | panic => exact ⟨true, by simp [sent, hd2, hb, hg], by simp⟩
      obtain ⟨b, hsent, hbdef⟩ := hsent
      rw [hsent] at h ⊢
      obtain ⟨s1, hs1, hc, hdb, hcr, hfh, hfs⟩ :=
        step_sent cfg s l hskip2 (h l (List.mem_cons_self _ _))
      have hseek : seeking s1 = b := by
        rw [hbdef]
        simp only [seeking, hfh, hfs]
        cases s.foundHeader <;> cases s.foundStart <;>
          cases (match getStatement l with | .ok _ => true | _ => false) <;> rfl
      obtain ⟨s2, h1, h2, h3, h4⟩ := ih s1
        (by rw [hseek]; exact fun x hx => h x (List.mem_cons_of_mem _ hx))
      rw [hseek] at h2 h3 h4
      refine ⟨s2, by simp [scan, hs1, h1], ?_, ?_, ?_⟩
      · rw [h2, hc, included_cons cfg l (sent b ls), List.length_append]; omega
      · rw [h3, hdb, included_cons cfg l (sent b ls), List.map_append, sumFrom_append]
      · rw [h4, hcr, included_cons cfg l (sent b ls), List.map_append, sumFrom_append]

theorem sent_true_cons (l : Str) (ls : List Str) :
    sent true (l :: ls) =
      if contains l "Date".toList = true then ls
      else if (l == []) = true then sent true ls
      else
        match getStatement l with
        | .ok _ => l :: ls
        | _ => l :: sent true ls := rfl

/-- When no line containing `Date` parses and passes the filter, the lines that the header
search skips hold no included transaction. -/
theorem included_sent (cfg : config) (b : Bool) (lines : List Str)
    (h : ∀ l ∈ lines, contains l "Date".toList = true → accepted cfg l = none) :
    included cfg (sent b lines) = included cfg lines := by
  induction lines generalizing b with
  | nil => cases b <;> rfl
  | cons l ls ih =>
    have hls : ∀ l ∈ ls, contains l "Date".toList = true → accepted cfg l = none :=
      fun x hx => h x (List.mem_cons_of_mem _ hx)
    cases b with
    | false => rw [sent_false]
    | true =>
      rw [sent_true_cons]
      by_cases hd : contains l "Date".toList = true
      · have ha := h l (List.mem_cons_self _ _) hd
        rw [if_pos hd, included_cons cfg l ls]
        simp [included, ha]
      · rw [if_neg hd]
        by_cases hb : (l == []) = true
        · have hl : l = [] := by simpa using hb
          have ha : accepted cfg l = none := by rw [hl]; rfl
          rw [if_pos hb, ih true hls, included_cons cfg l ls]
          simp [included, ha]
        · rw [if_neg hb]
          cases hg : getStatement l with
          | ok st => rfl
          | err e =>
            show included cfg (l :: sent true ls) = included cfg (l :: ls)
            rw [included_cons cfg l (sent true ls), included_cons cfg l ls, ih true hls]
          | panic =>
            show included cfg (l :: sent true ls) = included cfg (l :: ls)
            rw [included_cons cfg l (sent true ls), included_cons cfg l ls, ih true hls]

set_option maxRecDepth 100000 in
set_option exponentiation.threshold 2000 in
/-- C10, as stated, fails. A first line that parses and passes the filter but contains `Date`
is skipped as the header, so it is not counted; and the `float64` totals depend on the order
of the lines: 9007199254740992, 1, 1 sum to 9007199254740992, while 1, 1, 9007199254740992
sum to 9007199254740994. -/
theorem C10_counterexample :
    ((scan { config.init with net := true } Scan.init
        ["05/03/23,Date night,x,1.00,0.00,y".toList]).map (·.count) = some 0 ∧
     (included { config.init with net := true }
        ["05/03/23,Date night,x,1.00,0.00,y".toList]).length = 1) ∧
    (List.Perm
        ["05/03/23,A,x,9007199254740992,0,y".toList, "06/03/23,B,x,1,0,y".toList,
         "07/03/23,C,x,1,0,y".toList]
        ["06/03/23,B,x,1,0,y".toList, "07/03/23,C,x,1,0,y".toList,
         "05/03/23,A,x,9007199254740992,0,y".toList] ∧
     run { config.init with deb := true }
        ["05/03/23,A,x,9007199254740992,0,y".toList, "06/03/23,B,x,1,0,y".toList,
         "07/03/23,C,x,1,0,y".toList] = some (.summary "9007199254740992.00".toList) ∧
     run { config.init with deb := true }
        ["06/03/23,B,x,1,0,y".toList, "07/03/23,C,x,1,0,y".toList,
         "05/03/23,A,x,9007199254740992,0,y".toList] =
          some (.summary "9007199254740994.00".toList)) := by
  refine ⟨⟨by decide, by decide⟩, ?_, by decide, by decide⟩
  exact @List.perm_append_comm _ ["05/03/23,A,x,9007199254740992,0,y".toList]
    ["06/03/23,B,x,1,0,y".toList, "07/03/23,C,x,1,0,y".toList]

/-- C10, amended: when no line sent to `getStatement` makes the loop panic, the loop ends with
the match count equal to the number of sent lines that parse and pass the filter, and with
`debit` and `credit` equal to the `float64` sums, taken from zero in input order, of the Debit
and Credit of exactly those transactions. When moreover no line containing `Date` parses and
passes the filter, the count is the number of such lines of the whole input and is the same
for every permutation of the lines on which again no sent line makes the loop panic. -/
theorem C10_aggregation (cfg : config) (lines : List Str)
    (h : ∀ l ∈ sentLines lines, panics cfg l = false) :
    ∃ s, scan cfg Scan.init lines = some s ∧
      s.count = (included cfg (sentLines lines)).length ∧
      s.debit = sumFrom F64.zero ((included cfg (sentLines lines)).map (·.Debit)) ∧
      s.credit = sumFrom F64.zero ((included cfg (sentLines lines)).map (·.Credit)) ∧
      ((∀ l ∈ lines, contains l "Date".toList = true → accepted cfg l = none) →
        s.count = (included cfg lines).length ∧
        ∀ lines2 : List Str, lines.Perm lines2 →
          (∀ l ∈ sentLines lines2, panics cfg l = false) →
          ∃ s2, scan cfg Scan.init lines2 = some s2 ∧ s2.count = s.count) := by
  obtain ⟨s, h1, h2, h3, h4⟩ := scan_spec cfg lines Scan.init h
  have hseek : seeking Scan.init = true := rfl
  rw [hseek] at h2 h3 h4
  have hc0 : Scan.init.count = 0 := rfl
  rw [hc0, Nat.zero_add] at h2
  refine ⟨s, h1, h2, h3, h4, ?_⟩
  intro hdate
  have hcount : s.count = (included cfg lines).length := by
    rw [h2, included_sent cfg true lines hdate]
  refine ⟨hcount, ?_⟩
  intro lines2 hperm hp2
  have hdate2 : ∀ l ∈ lines2, contains l "Date".toList = true → accepted cfg l = none :=
    fun l hl => hdate l (hperm.mem_iff.2 hl)
  obtain ⟨s2, k1, k2, _, _⟩ := scan_spec cfg lines2 Scan.init hp2
  rw [hseek, hc0, Nat.zero_add, included_sent cfg true lines2 hdate2] at k2
  refine ⟨s2, k1, ?_⟩
  rw [k2, hcount]
  exact (hperm.symm.filterMap (accepted cfg)).length_eq

set_option maxRecDepth 100000 in
set_option exponentiation.threshold 2000 in
/-- C10, amended, on an input with two blank lines, a header, two statement lines of which
one passes the include entry `AMAZON`, and a malformed line; and on the permutation of it
that starts with the malformed line. -/
theorem C10_aggregation_witness :
    (∀ l ∈ sentLines ["".toList, "".toList, "Date,Narration,Ref,Debit,Credit,Balance".toList,
        "05/03/23, AMAZON PURCHASE, x, 150.00, 0.00, y".toList,
        "06/03/23, FUEL STATION 12, x, 20.50, 0.00, y".toList, "total".toList],
      panics { config.init with descriptions := ["AMAZON".toList] } l = false) ∧
    (∃ s, scan { config.init with descriptions := ["AMAZON".toList] } Scan.init
        ["".toList, "".toList, "Date,Narration,Ref,Debit,Credit,Balance".toList,
        "05/03/23, AMAZON PURCHASE, x, 150.00, 0.00, y".toList,
        "06/03/23, FUEL STATION 12, x, 20.50, 0.00, y".toList, "total".toList] = some s ∧
      s.count = 1 ∧ s.debit = F64.ofNat 150 ∧ s.credit = F64.zero) ∧
    (∃ s2, scan { config.init with descriptions := ["AMAZON".toList] } Scan.init
        ["total".toList, "".toList, "".toList,
        "Date,Narration,Ref,Debit,Credit,Balance".toList,
        "05/03/23, AMAZON PURCHASE, x, 150.00, 0.00, y".toList,
        "06/03/23, FUEL STATION 12, x, 20.50, 0.00, y".toList] = some s2 ∧ s2.count = 1) := by
  have h : ∀ l ∈ sentLines ["".toList, "".toList,
        "Date,Narration,Ref,Debit,Credit,Balance".toList,
        "05/03/23, AMAZON PURCHASE, x, 150.00, 0.00, y".toList,
        "06/03/23, FUEL STATION 12, x, 20.50, 0.00, y".toList, "total".toList],
      panics { config.init with descriptions := ["AMAZON".toList] } l = false := by decide
  obtain ⟨s, h1, h2, h3, h4, h5⟩ := C10_aggregation _ _ h
  obtain ⟨_, hperm⟩ := h5 (by decide)
  obtain ⟨s2, k1, k2⟩ := hperm
    ["total".toList, "".toList, "".toList,
      "Date,Narration,Ref,Debit,Credit,Balance".toList,
      "05/03/23, AMAZON PURCHASE, x, 150.00, 0.00, y".toList,
      "06/03/23, FUEL STATION 12, x, 20.50, 0.00, y".toList]
    (@List.perm_append_comm _ ["".toList, "".toList,
      "Date,Narration,Ref,Debit,Credit,Balance".toList,
      "05/03/23, AMAZON PURCHASE, x, 150.00, 0.00, y".toList,
      "06/03/23, FUEL STATION 12, x, 20.50, 0.00, y".toList] ["total".toList])
    (by decide)
  exact ⟨h, ⟨s, h1, h2.trans (by decide), h3.trans (by decide), h4.trans (by decide)⟩,
    ⟨s2, k1, k2.trans (h2.trans (by decide))⟩⟩

/-! ## The header search -/

theorem step_eq (cfg : config) (s : Scan) (l : Str) :
    step cfg s l =
      if (seeking s && contains l "Date".toList) = true then some { s with foundHeader := true }
      else if (seeking s && l == []) = true then some s
      else process cfg s l := rfl

theorem step_parsing (cfg : config) (s : Scan) (l : Str) (h : seeking s = false) :
    step cfg s l = process cfg s l := by
  rw [step_eq, h]; simp

theorem process_err (cfg : config) (s : Scan) (l : Str) (e : Err)
    (h : getStatement l = .err e) :
    process cfg s l = some { s with errors := s.errors ++ [e] } := by
  simp [process, h]

theorem process_rejected (cfg : config) (s : Scan) (l : Str) (st : statement)
    (h : getStatement l = .ok st) (hf : cfg.filterStatement st = false) :
    process cfg s l = some { s with foundStart := true } := by
  simp [process, h, hf]

/-- The flags after the loop body: `foundHeader` is kept, `foundStart` is set exactly by a
successful parse. -/
theorem process_flags (cfg : config) (s s1 : Scan) (l : Str) (h : process cfg s l = some s1) :
    s1.foundHeader = s.foundHeader ∧
    s1.foundStart = (s.foundStart || (match getStatement l with | .ok _ => true | _ => false)) := by
  unfold process at h
  cases hg : getStatement l with
  | panic => simp [hg] at h
  | err e =>
    simp only [hg, Option.some.injEq] at h
    subst h; simp
  | ok st =>
    simp only [hg] at h
    by_cases hf : cfg.filterStatement st = true
    · by_cases hm : (cfg.cred || cfg.deb || cfg.net) = true
      · simp only [hf, hm, Bool.not_true, Bool.false_eq_true, if_false, if_true,
          Option.some.injEq] at h
        subst h; simp
      · cases hsl : sliceTo st.Description DESCRIPTION_MAX_LEN with
        | none => simp [hf, hm, hsl] at h
        | some desc =>
          simp only [hf, hm, hsl, Bool.not_true, Bool.false_eq_true, if_false,
            Option.some.injEq] at h
          subst h; simp
    · simp only [hf, Bool.not_eq_true, Bool.not_false, if_true, Option.some.injEq] at h
      subst h; simp

/-- The loop body acts on the count, totals and rows only through their current values. -/
theorem process_congr (cfg : config) (s t : Scan) (l : Str) (h : s.result = t.result) :
    (process cfg s l).map Scan.result = (process cfg t l).map Scan.result := by
  simp only [Scan.result, Prod.mk.injEq] at h
  obtain ⟨h1, h2, h3, h4⟩ := h
  unfold process
  cases getStatement l with
  | panic => rfl
  | err e => simp [Scan.result, h1, h2, h3, h4]
  | ok st =>
    by_cases hf : cfg.filterStatement st = true
    · by_cases hm : (cfg.cred || cfg.deb || cfg.net) = true
      · simp [hf, hm, Scan.result, h1, h2, h3, h4]
      · cases hsl : sliceTo st.Description DESCRIPTION_MAX_LEN with
        | none => simp [hf, hm, hsl]
        | some desc => simp [hf, hm, hsl, Scan.result, h1, h2, h3, h4]
    · simp [hf, Scan.result, h1, h2, h3, h4]

/-- From two states that no longer seek the header and agree on count, totals and rows, the
loop gives the same count, totals and rows. -/
theorem scan_congr_parsing (cfg : config) (lines : List Str) (s t : Scan)
    (hs : seeking s = false) (ht : seeking t = false) (h : s.result = t.result) :
    (scan cfg s lines).map Scan.result = (scan cfg t lines).map Scan.result := by
  induction lines generalizing s t with
  | nil => simp [scan, h]
  | cons l ls ih =>
    have hc := process_congr cfg s t l h
    simp only [scan, step_parsing cfg s l hs, step_parsing cfg t l ht]
    cases hp : process cfg s l with
    | none =>
      rw [hp] at hc
      cases hq : process cfg t l with
      | none => rfl
      | some t1 => rw [hq] at hc; simp at hc
    | some s1 =>
      rw [hp] at hc
      cases hq : process cfg t l with
      | none => rw [hq] at hc; simp at hc
      | some t1 =>
        rw [hq] at hc
        have hr : s1.result = t1.result := by simpa using hc
        have hs1 : seeking s1 = false := by
          have := process_flags cfg s s1 l hp
          simp only [seeking] at hs ⊢
          rw [this.1, this.2]
          revert hs
          cases s.foundHeader <;> cases s.foundStart <;> simp
        have ht1 : seeking t1 = false := by
          have := process_flags cfg t t1 l hq
          simp only [seeking] at ht ⊢
          rw [this.1, this.2]
          revert ht
          cases t.foundHeader <;> cases t.foundStart <;> simp
        exact ih s1 t1 hs1 ht1 hr

/-- A line that neither passes the filter nor panics leaves count, totals and rows as they
are when it goes through the loop body. -/
theorem process_not_accepted (cfg : config) (t : Scan) (l : Str)
    (ha : accepted cfg l = none) (hp : panics cfg l = false) :
    ∃ t1, process cfg t l = some t1 ∧ t1.result = t.result := by
  unfold accepted at ha
  unfold panics at hp
  cases hg : getStatement l with
  | panic => simp [hg] at hp
  | err e => exact ⟨_, process_err cfg t l e hg, rfl⟩
  | ok st =>
    have hf : cfg.filterStatement st = false := by
      simp only [hg] at ha
      by_cases hf : cfg.filterStatement st = true
      · simp [hf] at ha
      · simpa using hf
    exact ⟨_, process_rejected cfg t l st hg hf, rfl⟩

theorem seeking_of_process (cfg : config) (s s1 : Scan) (l : Str)
    (hs : seeking s = false) (h : process cfg s l = some s1) : seeking s1 = false := by
  have := process_flags cfg s s1 l h
  simp only [seeking] at hs ⊢
  rw [this.1, this.2]
  revert hs
  cases s.foundHeader <;> cases s.foundStart <;> simp

/-- The loop from any state and the loop from a state that has found the header give the same
count, totals and rows, when no line containing `Date` passes the filter or panics. -/
theorem scan_congr_header (cfg : config) (lines : List Str) (s t : Scan)
    (ht : seeking t = false) (h : s.result = t.result)
    (hD : ∀ l ∈ lines, contains l "Date".toList = true →
      accepted cfg l = none ∧ panics cfg l = false) :
    (scan cfg s lines).map Scan.result = (scan cfg t lines).map Scan.result := by
  induction lines generalizing s t with
  | nil => simp [scan, h]
  | cons l ls ih =>
    have hls : ∀ x ∈ ls, contains x "Date".toList = true →
        accepted cfg x = none ∧ panics cfg x = false :=
      fun x hx => hD x (List.mem_cons_of_mem _ hx)
    cases hs : seeking s with
    | false => exact scan_congr_parsing cfg (l :: ls) s t hs ht h
    | true =>
      simp only [scan, step_parsing cfg t l ht]
      rw [step_eq, hs]
      by_cases hd : contains l "Date".toList = true
      · obtain ⟨ha, hp⟩ := hD l (List.mem_cons_self _ _) hd
        obtain ⟨t1, ht1, hr⟩ := process_not_accepted cfg t l ha hp
        have h1 : (true && contains l "Date".toList) = true := by rw [hd]; rfl
        rw [if_pos h1, ht1]
        exact scan_congr_parsing cfg ls _ t1 (by simp [seeking])
          (seeking_of_process cfg t t1 l ht ht1) (by rw [hr, ← h]; rfl)
      · have h1 : ¬ (true && contains l "Date".toList) = true := by simpa using hd
        rw [if_neg h1]
        by_cases hb : (l == []) = true
        · have hl : l = [] := by simpa using hb
          have h2 : (true && l == []) = true := by rw [hb]; rfl
          have ht1 : process cfg t l = some { t with errors := t.errors ++ [.parsingStatementFile] } :=
            process_err cfg t l _ (by rw [hl]; rfl)
          rw [if_pos h2, ht1]
          exact ih s _ (seeking_of_process cfg t _ l ht ht1) (by rw [h]; rfl) hls
        · have h2 : ¬ (true && l == []) = true := by simpa using hb
          rw [if_neg h2]
          have hc := process_congr cfg s t l h
          cases hp : process cfg s l with
          | none =>
            rw [hp] at hc
            cases hq : process cfg t l with
            | none => rfl
            | some t1 => rw [hq] at hc; simp at hc
          | some s1 =>
            rw [hp] at hc
            cases hq : process cfg t l with
            | none => rw [hq] at hc; simp at hc
            | some t1 =>
              rw [hq] at hc
              exact ih s1 t1 (seeking_of_process cfg t t1 l ht hq) (by simpa using hc) hls

theorem finish_congr (cfg : config) (s t : Scan) (h : s.result = t.result) :
    finish cfg s = finish cfg t := by
  simp only [Scan.result, Prod.mk.injEq] at h
  obtain ⟨h1, h2, h3, h4⟩ := h
  simp [finish, h1, h2, h3, h4]

theorem map_finish_congr (cfg : config) (a b : Option Scan)
    (h : a.map Scan.result = b.map Scan.result) : a.map (finish cfg) = b.map (finish cfg) := by
  cases a with
  | none => cases b with
    | none => rfl
    | some t => simp at h
  | some s => cases b with
    | none => simp at h
    | some t => simp only [Option.map_some', Option.some.injEq] at h ⊢; exact finish_congr cfg s t h

set_option maxRecDepth 100000 in
set_option exponentiation.threshold 2000 in
/-- C11, as stated, fails: after two blank lines and a header, the statement line
`05/03/23,Date night,x,1.00,0.00,y` is counted, while alone it is skipped as the header and
the run ends with no match. -/
theorem C11_counterexample :
    contains "Date,Narration,Ref,Debit,Credit,Balance".toList "Date".toList = true ∧
    run { config.init with deb := true }
      ([[], [], "Date,Narration,Ref,Debit,Credit,Balance".toList] ++
        ["05/03/23,Date night,x,1.00,0.00,y".toList]) = some (.summary "1.00".toList) ∧
    run { config.init with deb := true }
      ["05/03/23,Date night,x,1.00,0.00,y".toList] = some .noMatch := by
  decide

theorem process_none_iff (cfg : config) (s : Scan) (l : Str) :
    process cfg s l = none ↔ panics cfg l = true := by
  unfold process panics
  cases getStatement l with
  | panic => simp
  | err e => simp
  | ok st =>
    by_cases hf : cfg.filterStatement st = true
    · by_cases hm : (cfg.cred || cfg.deb || cfg.net) = true
      · simp [hf, hm]
      · cases hsl : sliceTo st.Description DESCRIPTION_MAX_LEN with
        | none => simp [hf, hm, hsl]
        | some desc => simp [hf, hm, hsl]
    · simp [hf]

theorem process_accepted_count (cfg : config) (s s1 : Scan) (l : Str) (st : statement)
    (ha : accepted cfg l = some st) (h : process cfg s l = some s1) :
    s1.count = s.count + 1 := by
  unfold accepted at ha
  unfold process at h
  cases hg : getStatement l with
  | panic => simp [hg] at ha
  | err e => simp [hg] at ha
  | ok st1 =>
    simp only [hg] at ha h
    by_cases hf : cfg.filterStatement st1 = true
    · by_cases hm : (cfg.cred || cfg.deb || cfg.net) = true
      · simp only [hf, hm, Bool.not_true, Bool.false_eq_true, if_false, if_true,
          Option.some.injEq] at h
        subst h; rfl
      · cases hsl : sliceTo st1.Description DESCRIPTION_MAX_LEN with
        | none => simp [hf, hm, hsl] at h
        | some desc =>
          simp only [hf, hm, hsl, Bool.not_true, Bool.false_eq_true, if_false,
            Option.some.injEq] at h
          subst h; rfl
    · simp [hf] at ha

/-- After the header search has ended, the loop panics exactly when some line panics. -/
theorem scan_none_iff (cfg : config) (lines : List Str) (s : Scan) (hs : seeking s = false) :
    scan cfg s lines = none ↔ lines.any (panics cfg) = true := by
  induction lines generalizing s with
  | nil => simp [scan]
  | cons l ls ih =>
    simp only [scan, step_parsing cfg s l hs, List.any_cons, Bool.or_eq_true]
    cases hp : process cfg s l with
    | none =>
      have := (process_none_iff cfg s l).1 hp
      simp [this]
    | some s1 =>
      have hn : panics cfg l = false := by
        cases hq : panics cfg l with
        | false => rfl
        | true =>
          have := (process_none_iff cfg s l).2 hq
          rw [hp] at this; cases this
      simp only [hn, Bool.false_eq_true, false_or]
      exact ih s1 (seeking_of_process cfg s s1 l hs hp)

/-- After the header search has ended and when no line panics, the loop adds to the count
the number of lines that parse and pass the filter. -/
theorem scan_count_parsing (cfg : config) (lines : List Str) (s : Scan)
    (hs : seeking s = false) (hp : lines.any (panics cfg) = false) :
    ∃ s1, scan cfg s lines = some s1 ∧ s1.count = s.count + (included cfg lines).length := by
  have h : ∀ l ∈ sent (seeking s) lines, panics cfg l = false := by
    rw [hs, sent_false]
    intro l hl
    cases hq : panics cfg l with
    | false => rfl
    | true =>
      have : lines.any (panics cfg) = true := List.any_eq_true.2 ⟨l, hl, hq⟩
      rw [hp] at this; cases this
  obtain ⟨s1, h1, h2, _, _⟩ := scan_spec cfg lines s h
  rw [hs, sent_false] at h2
  exact ⟨s1, h1, h2⟩

/-- The loop that still seeks the header and the loop that has found it, started on the same
count, totals and rows, end on the same count, totals and rows exactly when the header search
on the lines is without effect. -/
theorem scan_header_iff (cfg : config) (lines : List Str) (s t : Scan)
    (hs : seeking s = true) (ht : seeking t = false) (h : s.result = t.result) :
    (scan cfg s lines).map Scan.result = (scan cfg t lines).map Scan.result ↔
      headerSkipNeutral cfg lines = true := by
  induction lines generalizing s t with
  | nil => simp [scan, h, headerSkipNeutral]
  | cons l ls ih =>
    simp only [scan, step_parsing cfg t l ht]
    rw [step_eq, hs]
    by_cases hd : contains l "Date".toList = true
    · have h1 : (true && contains l "Date".toList) = true := by rw [hd]; rfl
      have hN : headerSkipNeutral cfg (l :: ls) =
          (((accepted cfg l).isNone && !panics cfg l) || ls.any (panics cfg)) := by
        show (if contains l "Date".toList = true then _ else _) = _
        rw [if_pos hd]
      rw [if_pos h1, hN]
      have hs1 : seeking { s with foundHeader := true } = false := by simp [seeking]
      cases hp : process cfg t l with
      | none =>
        have hpl := (process_none_iff cfg t l).1 hp
        rw [hpl]
        simp only [Option.map_none', Bool.not_true, Bool.and_false, Bool.false_or]
        rw [← scan_none_iff cfg ls _ hs1]
        cases scan cfg { s with foundHeader := true } ls <;> simp
      | some t1 =>
        have hpl : panics cfg l = false := by
          cases hq : panics cfg l with
          | false => rfl
          | true =>
            have := (process_none_iff cfg t l).2 hq
            rw [hp] at this; cases this
        have ht1 : seeking t1 = false := seeking_of_process cfg t t1 l ht hp
        rw [hpl]
        simp only [Bool.not_false, Bool.and_true]
        cases ha : accepted cfg l with
        | none =>
          obtain ⟨t2, ht2, hr⟩ := process_not_accepted cfg t l ha hpl
          rw [hp] at ht2
          cases ht2
          simp only [Option.isNone_none, Bool.true_or, iff_true]
          exact scan_congr_parsing cfg ls _ t1 hs1 ht1 (by rw [hr, ← h]; rfl)
        | some st =>
          have hc := process_accepted_count cfg t t1 l st ha hp
          simp only [Option.isNone_some, Bool.false_or]
          cases hany : ls.any (panics cfg) with
          | true =>
            have e1 := (scan_none_iff cfg ls _ hs1).2 hany
            have e2 := (scan_none_iff cfg ls t1 ht1).2 hany
            rw [e1, e2]
            simp
          | false =>
            obtain ⟨a, ha1, ha2⟩ := scan_count_parsing cfg ls _ hs1 hany
            obtain ⟨b, hb1, hb2⟩ := scan_count_parsing cfg ls t1 ht1 hany
            rw [ha1, hb1]
            simp only [Option.map_some', Option.some.injEq, Bool.false_eq_true, iff_false]
            intro hab
            have hcnt : a.count = b.count := by
              have := congrArg Prod.fst hab
              simpa [Scan.result] using this
            have hst : s.count = t.count := by
              have := congrArg Prod.fst h
              simpa [Scan.result] using this
            rw [ha2, hb2, hc] at hcnt
            simp only at hcnt
            omega
    · have h1 : ¬ (true && contains l "Date".toList) = true := by simpa using hd
      rw [if_neg h1]
      by_cases hb : (l == []) = true
      · have hl : l = [] := by simpa using hb
        have h2 : (true && l == []) = true := by rw [hb]; rfl
        have ht1 : process cfg t l =
            some { t with errors := t.errors ++ [.parsingStatementFile] } :=
          process_err cfg t l _ (by rw [hl]; rfl)
        have hN : headerSkipNeutral cfg (l :: ls) = headerSkipNeutral cfg ls := by
          show (if contains l "Date".toList = true then _ else _) = _
          rw [if_neg hd, if_pos hb]
        rw [if_pos h2, ht1, hN]
        exact ih s _ hs (seeking_of_process cfg t _ l ht ht1) (by rw [h]; rfl)
      · have h2 : ¬ (true && l == []) = true := by simpa using hb
        rw [if_neg h2]
        have hc := process_congr cfg s t l h
        cases hg : getStatement l with
        | err e =>
          have hN : headerSkipNeutral cfg (l :: ls) = headerSkipNeutral cfg ls := by
            show (if contains l "Date".toList = true then _ else _) = _
            rw [if_neg hd, if_neg hb]
            simp only [hg]
          rw [hN, process_err cfg s l e hg, process_err cfg t l e hg]
          exact ih _ _ hs ht (by rw [Scan.result, Scan.result] at h ⊢; exact h)
        | panic =>
          have hN : headerSkipNeutral cfg (l :: ls) = true := by
            show (if contains l "Date".toList = true then _ else _) = _
            rw [if_neg hd, if_neg hb]
            simp only [hg]
          have e1 : process cfg s l = none := by simp [process, hg]
          have e2 : process cfg t l = none := by simp [process, hg]
          rw [hN, e1, e2]
          simp
        | ok st =>
          have hN : headerSkipNeutral cfg (l :: ls) = true := by
            show (if contains l "Date".toList = true then _ else _) = _
            rw [if_neg hd, if_neg hb]
            simp only [hg]
          rw [hN]
          simp only [iff_true]
          cases hp : process cfg s l with
          | none =>
            rw [hp] at hc
            cases hq : process cfg t l with
            | none => rfl
            | some t1 => rw [hq] at hc; simp at hc
          | some s1 =>
            rw [hp] at hc
            cases hq : process cfg t l with
            | none => rw [hq] at hc; simp at hc
            | some t1 =>
              rw [hq] at hc
              have hs1 : seeking s1 = false := by
                have := process_flags cfg s s1 l hp
                simp only [seeking, this.1, this.2, hg]
                simp
              exact scan_congr_parsing cfg ls s1 t1 hs1
                (seeking_of_process cfg t t1 l ht hq) (by simpa using hc)

/-- C11, amended: for a header line `h` containing `Date` and any lines `D`, the run on two
blank lines, `h` and `D` gives the same match count, totals and rows as the run on `D` alone
exactly when the header search that the loop makes on `D` itself is without effect: it skips
no line, or the line it skips (the first line containing `Date` met before any line that
parses) would neither pass the filter nor panic, or a later line panics. The two runs then
give the same output. -/
theorem C11_header_skip (cfg : config) (h : Str) (D : List Str)
    (hh : contains h "Date".toList = true) :
    ((scan cfg Scan.init ([[], [], h] ++ D)).map Scan.result =
        (scan cfg Scan.init D).map Scan.result ↔ headerSkipNeutral cfg D = true) ∧
    (headerSkipNeutral cfg D = true → run cfg ([[], [], h] ++ D) = run cfg D) := by
  have h0 : scan cfg Scan.init ([[], [], h] ++ D) =
      scan cfg { Scan.init with foundHeader := true } D := by
    have e1 : step cfg Scan.init [] = some Scan.init := rfl
    have e2 : step cfg Scan.init h = some { Scan.init with foundHeader := true } := by
      rw [step_eq]
      have : (seeking Scan.init && contains h "Date".toList) = true := by rw [hh]; rfl
      rw [if_pos this]
    show scan cfg Scan.init ([] :: [] :: h :: D) = _
    simp only [scan, e1, e2]
  have h1 := scan_header_iff cfg D Scan.init { Scan.init with foundHeader := true }
    rfl rfl rfl
  have key : (scan cfg Scan.init ([[], [], h] ++ D)).map Scan.result =
      (scan cfg Scan.init D).map Scan.result ↔ headerSkipNeutral cfg D = true := by
    rw [h0, ← h1]
    exact eq_comm
  exact ⟨key, fun hn => map_finish_congr cfg _ _ (key.2 hn)⟩

set_option maxRecDepth 100000 in
set_option exponentiation.threshold 2000 in
/-- C11, amended, on two statement lines of which the second contains `Date`: the first line
parses, so the header search on them skips nothing. -/
theorem C11_header_skip_witness :
    run config.init
      ([[], [], "Date,Narration,Ref,Debit,Credit,Balance".toList] ++
        ["05/03/23, AMAZON PURCHASE, x, 150.00, 0.00, y".toList,
         "06/03/23, Date night dinner, x, 20.50, 0.00, y".toList]) =
    run config.init
      ["05/03/23, AMAZON PURCHASE, x, 150.00, 0.00, y".toList,
       "06/03/23, Date night dinner, x, 20.50, 0.00, y".toList] :=
  (C11_header_skip config.init "Date,Narration,Ref,Debit,Credit,Balance".toList
    ["05/03/23, AMAZON PURCHASE, x, 150.00, 0.00, y".toList,
     "06/03/23, Date night dinner, x, 20.50, 0.00, y".toList] (by decide)).2 (by decide)

/-- C12, as stated, fails: the first line `HDFC BANK Ltd. statement` is neither blank nor
contains `Date`, yet after it the loop still seeks the header (the line did not parse), and
the next line, which contains `Date`, is skipped as the header instead of being sent to
`getStatement`. -/
theorem C12_counterexample :
    step config.init Scan.init "HDFC BANK Ltd. statement".toList =
      some { Scan.init with errors := [.parsingStatementFile] } ∧
    seeking { Scan.init with errors := [.parsingStatementFile] } = true ∧
    step config.init { Scan.init with errors := [.parsingStatementFile] }
        "Date,Narration,Ref,Debit,Credit,Balance".toList =
      some { Scan.init with errors := [.parsingStatementFile], foundHeader := true } ∧
    step config.init { Scan.init with errors := [.parsingStatementFile] }
        "Date,Narration,Ref,Debit,Credit,Balance".toList ≠
      process config.init { Scan.init with errors := [.parsingStatementFile] }
        "Date,Narration,Ref,Debit,Credit,Balance".toList := by
  decide

/-- C12, amended: while the loop seeks the header, a line that is neither blank nor contains
`Date` is sent to `getStatement`; it ends the search when it parses, and leaves the loop
seeking when `getStatement` returns an error. A line containing `Date` met while seeking is
skipped and ends the search. After the search has ended it stays ended: every line, blank or
containing `Date` or not, is sent to `getStatement`. -/
theorem C12_state_machine (cfg : config) (s : Scan) (l : Str) :
    (seeking s = true → contains l "Date".toList = false → l ≠ [] →
      step cfg s l = process cfg s l ∧
      (∀ st, getStatement l = .ok st → panics cfg l = false →
        ∃ s1, step cfg s l = some s1 ∧ seeking s1 = false) ∧
      (∀ e, getStatement l = .err e → ∃ s1, step cfg s l = some s1 ∧ seeking s1 = true)) ∧
    (seeking s = true → contains l "Date".toList = true →
      ∃ s1, step cfg s l = some s1 ∧ seeking s1 = false ∧ s1.result = s.result) ∧
    (seeking s = false →
      step cfg s l = process cfg s l ∧ ∀ s1, step cfg s l = some s1 → seeking s1 = false) := by
  refine ⟨?_, ?_, ?_⟩
  · intro hs hd hl
    have hb : (l == []) = false := by simpa using hl
    have h1 : ¬ (seeking s && contains l "Date".toList) = true := by rw [hd]; simp
    have h2 : ¬ (seeking s && l == []) = true := by rw [hb]; simp
    have hstep : step cfg s l = process cfg s l := by rw [step_eq, if_neg h1, if_neg h2]
    refine ⟨hstep, ?_, ?_⟩
    · intro st hg hp
      obtain ⟨s1, hs1, _, _, _, hfh, hfs⟩ := step_sent cfg s l (by rw [hd, hb]; simp) hp
      refine ⟨s1, hs1, ?_⟩
      simp only [seeking, hfh, hfs, hg]
      simp
    · intro e hg
      rw [hstep, process_err cfg s l e hg]
      exact ⟨_, rfl, hs⟩
  · intro hs hd
    have h1 : (seeking s && contains l "Date".toList) = true := by rw [hs, hd]; rfl
    rw [step_eq, if_pos h1]
    exact ⟨_, rfl, by simp [seeking], rfl⟩
  · intro hs
    refine ⟨step_parsing cfg s l hs, ?_⟩
    intro s1 h1
    rw [step_parsing cfg s l hs] at h1
    exact seeking_of_process cfg s s1 l hs h1

set_option maxRecDepth 100000 in
set_option exponentiation.threshold 2000 in
/-- C12, amended, at the first statement line of an input without header: it parses, and the
search for the header ends. -/
theorem C12_state_machine_witness :
    ∃ s1, step config.init Scan.init "05/03/23, AMAZON PURCHASE, x, 150.00, 0.00, y".toList
        = some s1 ∧ seeking s1 = false :=
  (C12_state_machine config.init Scan.init
    "05/03/23, AMAZON PURCHASE, x, 150.00, 0.00, y".toList).1 (by decide) (by decide)
    (by decide) |>.2.1 _ rfl (by decide)

set_option maxRecDepth 100000 in
set_option exponentiation.threshold 2000 in
/-- C13: in table mode the row takes `st.Description[:DESCRIPTION_MAX_LEN]`; on the included
transaction with the description `AMAZON` (6 bytes) the slice panics, and so do the loop
iteration and the run. -/
theorem C13_short_description_panics :
    (accepted config.init "05/03/23, AMAZON, x, 150.00, 0.00, y".toList).map (·.Description) =
      some "AMAZON".toList ∧
    sliceTo "AMAZON".toList DESCRIPTION_MAX_LEN = none ∧
    step config.init Scan.init "05/03/23, AMAZON, x, 150.00, 0.00, y".toList = none ∧
    run config.init ["05/03/23, AMAZON, x, 150.00, 0.00, y".toList] = none := by
  decide

/-- C14: a line on which `getStatement` returns an error, or which parses and is rejected by
`filterStatement`, leaves the match count, both totals and the rows as they are, and the loop
goes on with the next line. -/
theorem C14_skipped_line (cfg : config) (s : Scan) (l : Str)
    (h : (∃ e, getStatement l = .err e) ∨
         (∃ st, getStatement l = .ok st ∧ cfg.filterStatement st = false)) :
    ∃ s1, step cfg s l = some s1 ∧
      s1.count = s.count ∧ s1.debit = s.debit ∧ s1.credit = s.credit ∧ s1.rows = s.rows ∧
      ∀ rest, scan cfg s (l :: rest) = scan cfg s1 rest := by
  have key : ∃ s1, step cfg s l = some s1 ∧
      s1.count = s.count ∧ s1.debit = s.debit ∧ s1.credit = s.credit ∧ s1.rows = s.rows := by
    rw [step_eq]
    by_cases h1 : (seeking s && contains l "Date".toList) = true
    · rw [if_pos h1]; exact ⟨_, rfl, rfl, rfl, rfl, rfl⟩
    · rw [if_neg h1]
      by_cases h2 : (seeking s && l == []) = true
      · rw [if_pos h2]; exact ⟨_, rfl, rfl, rfl, rfl, rfl⟩
      · rw [if_neg h2]
        rcases h with ⟨e, he⟩ | ⟨st, hst, hf⟩
        · rw [process_err cfg s l e he]; exact ⟨_, rfl, rfl, rfl, rfl, rfl⟩
        · rw [process_rejected cfg s l st hst hf]; exact ⟨_, rfl, rfl, rfl, rfl, rfl⟩
  obtain ⟨s1, hs1, h1, h2, h3, h4⟩ := key
  exact ⟨s1, hs1, h1, h2, h3, h4, fun rest => by simp [scan, hs1]⟩

set_option maxRecDepth 100000 in
set_option exponentiation.threshold 2000 in
/-- C14 at a malformed line, and at a statement line rejected by the include entry `AMAZON`,
after one counted transaction. -/
theorem C14_skipped_line_witness :
    (∃ s1, step { config.init with descriptions := ["AMAZON".toList] }
        { Scan.init with foundStart := true, count := 1, debit := F64.ofNat 150 }
        "total".toList = some s1 ∧
      s1.count = 1 ∧ s1.debit = F64.ofNat 150 ∧ s1.credit = F64.zero ∧ s1.rows = [] ∧
      ∀ rest, scan { config.init with descriptions := ["AMAZON".toList] }
        { Scan.init with foundStart := true, count := 1, debit := F64.ofNat 150 }
        ("total".toList :: rest) =
        scan { config.init with descriptions := ["AMAZON".toList] } s1 rest) ∧
    (∃ s1, step { config.init with descriptions := ["AMAZON".toList] }
        { Scan.init with foundStart := true, count := 1, debit := F64.ofNat 150 }
        "06/03/23, FUEL STATION 12, x, 20.50, 0.00, y".toList = some s1 ∧
      s1.count = 1 ∧ s1.debit = F64.ofNat 150 ∧ s1.credit = F64.zero ∧ s1.rows = [] ∧
      ∀ rest, scan { config.init with descriptions := ["AMAZON".toList] }
        { Scan.init with foundStart := true, count := 1, debit := F64.ofNat 150 }
        ("06/03/23, FUEL STATION 12, x, 20.50, 0.00, y".toList :: rest) =
        scan { config.init with descriptions := ["AMAZON".toList] } s1 rest) :=
  ⟨C14_skipped_line _ _ _ (Or.inl ⟨.parsingStatementFile, by decide⟩),
   C14_skipped_line _ _ _ (Or.inr ⟨_, rfl, by decide⟩)⟩

/-! ## Amounts -/

theorem round_sign (neg : Bool) (n d : Nat) :
    (F64.round neg n d).1 ≠ F64.nan ∧ (F64.round neg n d).1.signBit = neg := by
  unfold F64.round
  simp only
  split_ifs <;> simp [F64.signBit]

theorem floatOfRead_sign (r : ReadFloat) :
    (floatOfRead r).1 ≠ F64.nan ∧ (floatOfRead r).1.signBit = r.neg := by
  unfold floatOfRead
  simp only
  split
  · exact round_sign _ _ _
  · exact round_sign _ _ _

theorem readExponent_neg (neg hex : Bool) (d : Digits) (dp : Int) (rest : Str) (r : ReadFloat)
    (h : readExponent neg hex d dp rest = some r) : r.neg = neg := by
  unfold readExponent at h
  simp only at h
  repeat' split at h
  all_goals first
    | (cases h; done)
    | (cases h; rfl)

theorem readMantissa_neg (neg : Bool) (s : Str) (r : ReadFloat)
    (h : readMantissa neg s = some r) : r.neg = neg := by
  unfold readMantissa at h
  simp only at h
  split_ifs at h
  all_goals exact readExponent_neg _ _ _ _ _ _ h

theorem readFloat_neg (s : Str) (r : ReadFloat) (h : readFloat s = some r) :
    r.neg = startsWithMinus s := by
  cases s with
  | nil => simp [readFloat] at h
  | cons c cs =>
    simp only [readFloat] at h
    by_cases h1 : c = '+'
    · rw [if_pos h1] at h
      rw [readMantissa_neg _ _ _ h, h1]; rfl
    · rw [if_neg h1] at h
      by_cases h2 : c = '-'
      · rw [if_pos h2] at h
        rw [readMantissa_neg _ _ _ h, h2]; rfl
      · rw [if_neg h2] at h
        rw [readMantissa_neg _ _ _ h]
        simp [startsWithMinus, h2]

theorem specialInf_sign (neg : Bool) (k : Nat) (s : Str) (v : F64) (n : Nat)
    (h : specialInf neg k s = some (v, n)) : v = F64.inf neg := by
  unfold specialInf at h
  simp only at h
  split_ifs at h
  all_goals (cases h; rfl)

theorem special_sign (s : Str) (v : F64) (n : Nat) (h : special s = some (v, n)) :
    v = F64.nan ∨ v.signBit = startsWithMinus s := by
  cases s with
  | nil => simp [special] at h
  | cons c cs =>
    simp only [special] at h
    by_cases h1 : c = '+'
    · rw [if_pos h1] at h
      rw [specialInf_sign _ _ _ _ _ h, h1]; exact Or.inr rfl
    · rw [if_neg h1] at h
      by_cases h2 : c = '-'
      · rw [if_pos h2] at h
        rw [specialInf_sign _ _ _ _ _ h, h2]; exact Or.inr rfl
      · rw [if_neg h2] at h
        by_cases h3 : c = 'i' ∨ c = 'I'
        · rw [if_pos h3] at h
          rw [specialInf_sign _ _ _ _ _ h]
          exact Or.inr (by simp [startsWithMinus, F64.signBit, h2])
        · rw [if_neg h3] at h
          split at h
          · split at h
            · simp only [Option.some.injEq, Prod.mk.injEq] at h
              exact Or.inl h.1.symm
            · simp at h
          · simp at h

/-- The value that `strconv.ParseFloat` returns is NaN or carries the sign written in the
text. -/
theorem parseFloat_sign (s : Str) (v : F64) (h : parseFloat s = .ok v) :
    v = F64.nan ∨ v.signBit = startsWithMinus s := by
  unfold parseFloat at h
  split at h
  · rename_i w n hsp
    split at h
    · simp only [Except.ok.injEq] at h
      rw [← h]; exact special_sign s w n hsp
    · simp at h
  · split at h
    · simp at h
    · rename_i r hr
      split at h
      · simp at h
      · split at h
        · simp at h
        · simp only at h
          split at h
          · simp at h
          · simp only [Except.ok.injEq] at h
            rw [← h, (floatOfRead_sign r).2]
            exact Or.inr (readFloat_neg s r hr)

theorem geZero_of_signBit (v : F64) (hn : v ≠ F64.nan) (hs : v.signBit = false) :
    v.geZero = true := by
  cases v with
  | nan => exact absurd rfl hn
  | inf s => simp only [F64.signBit] at hs; simp [F64.geZero, hs]
  | fin s m e => simp only [F64.signBit] at hs; simp [F64.geZero, hs]

/-- A transaction that `getStatement` returns holds what `strconv.ParseFloat` reads from the
trimmed fields 3 and 4. -/
theorem getStatement_ok_amounts (line : Str) (st : statement) (h : getStatement line = .ok st) :
    parseFloat (trimSpace ((splitOn ',' line).getD 3 [])) = .ok st.Debit ∧
    parseFloat (trimSpace ((splitOn ',' line).getD 4 [])) = .ok st.Credit := by
  unfold getStatement at h
  simp only at h
  split_ifs at h
  split at h
  · cases h
  · split at h
    · cases h
    · split at h
      · cases h
      · split at h
        · cases h
        · rename_i debit hd
          split at h
          · cases h
          · rename_i credit hc
            cases h
            exact ⟨hd, hc⟩

set_option maxRecDepth 100000 in
set_option exponentiation.threshold 2000 in
/-- C15, as stated, fails: `1e5` and `NaN` are not decimal numbers (sign, digits, fractional
part), yet `getStatement` returns a transaction for a debit field `1e5` and for a credit field
`NaN`. -/
theorem C15_counterexample :
    isDecimalNumber "1e5".toList = false ∧ isDecimalNumber "NaN".toList = false ∧
    getStatement "05/03/23,AMAZON,x,1e5,0.00,y".toList = .ok
      { Date := ⟨2023, 3, 5⟩, DateFmt := "05/03/2023".toList, Description := "AMAZON".toList,
        Debit := F64.ofNat 100000, Credit := F64.zero } ∧
    getStatement "05/03/23,AMAZON,x,1.00,NaN,y".toList = .ok
      { Date := ⟨2023, 3, 5⟩, DateFmt := "05/03/2023".toList, Description := "AMAZON".toList,
        Debit := F64.ofNat 1, Credit := F64.nan } := by
  decide

/-- C15, amended: on a line with at least six fields and a valid date token, when
`strconv.ParseFloat` refuses the trimmed field 3, `getStatement` returns that error and no
transaction; when it accepts the trimmed field 3 and refuses the trimmed field 4,
`getStatement` returns the error of field 4 and no transaction. -/
theorem C15_invalid_amount (line f0 f1 f2 f3 f4 f5 fixed : Str) (rest : List Str) (date : Time)
    (hsplit : splitOn ',' line = f0 :: f1 :: f2 :: f3 :: f4 :: f5 :: rest)
    (hfix : fixDate (trimSpace f0) = some fixed)
    (hdate : timeParse fixed = some date) :
    (∀ e, parseFloat (trimSpace f3) = .error e → getStatement line = .err (.num e)) ∧
    (∀ debit e, parseFloat (trimSpace f3) = .ok debit → parseFloat (trimSpace f4) = .error e →
      getStatement line = .err (.num e)) := by
  have h6 : ¬ (rest.length + 1 + 1 + 1 + 1 + 1 + 1 < 6) := by omega
  constructor
  · intro e he
    simp only [getStatement, hsplit, List.length_cons, List.getD_cons_zero,
      List.getD_cons_succ, hfix, hdate, if_neg h6, he]
  · intro debit e hd he
    simp only [getStatement, hsplit, List.length_cons, List.getD_cons_zero,
      List.getD_cons_succ, hfix, hdate, if_neg h6, hd, he]

set_option maxRecDepth 100000 in
set_option exponentiation.threshold 2000 in
/-- C15, amended, at the debit field `abc` (a syntax error), and at the credit field `1e400`
after the debit field `150.00` (a range error). -/
theorem C15_invalid_amount_witness :
    getStatement "05/03/23, AMAZON PURCHASE, x, abc, 0.00, y".toList =
      .err (.num .errSyntax) ∧
    getStatement "05/03/23, AMAZON PURCHASE, x, 150.00, 1e400, y".toList =
      .err (.num .errRange) :=
  ⟨(C15_invalid_amount "05/03/23, AMAZON PURCHASE, x, abc, 0.00, y".toList
      "05/03/23".toList " AMAZON PURCHASE".toList " x".toList " abc".toList " 0.00".toList
      " y".toList "05/03/2023".toList [] ⟨2023, 3, 5⟩ (by decide) (by decide) (by decide)).1
      .errSyntax rfl,
   (C15_invalid_amount "05/03/23, AMAZON PURCHASE, x, 150.00, 1e400, y".toList
      "05/03/23".toList " AMAZON PURCHASE".toList " x".toList " 150.00".toList
      " 1e400".toList " y".toList "05/03/2023".toList [] ⟨2023, 3, 5⟩
      (by decide) (by decide) (by decide)).2 (F64.ofNat 150) .errRange rfl rfl⟩

set_option maxRecDepth 100000 in
set_option exponentiation.threshold 2000 in
/-- C16: on the single line `05/03/23, AMAZON PURCHASE, x, 150.00, 0.00, y` with the include
entry `AMAZON` and no other criteria, the loop counts one transaction with the totals 150.00
and 0.00, and the run prints its row and the footer with the net `-150.00`. -/
theorem C16_scenario :
    parseFlags config.init [.d "AMAZON".toList] =
      .ok { config.init with descriptions := ["AMAZON".toList] } ∧
    (scan { config.init with descriptions := ["AMAZON".toList] } Scan.init
        ["05/03/23, AMAZON PURCHASE, x, 150.00, 0.00, y".toList]).map Scan.result =
      some (1, F64.ofNat 150, F64.zero,
        [⟨"05/03/2023".toList, utf8 "AMAZON PURCHASE".toList, "150.00".toList,
          "0.00".toList⟩]) ∧
    float64ToString (F64.ofNat 150) = "150.00".toList ∧
    float64ToString F64.zero = "0.00".toList ∧
    calculateNetFmt (F64.ofNat 150) F64.zero = "-150.00".toList ∧
    run { config.init with descriptions := ["AMAZON".toList] }
        ["05/03/23, AMAZON PURCHASE, x, 150.00, 0.00, y".toList] =
      some (.table
        [⟨"05/03/2023".toList, utf8 "AMAZON PURCHASE".toList, "150.00".toList,
          "0.00".toList⟩]
        ["NET".toList, "-150.00".toList, "150.00".toList, "0.00".toList]) := by
  refine ⟨rfl, by decide, by decide, by decide, by decide, by decide⟩

/-- When no line sent to `getStatement` panics, the run ends with `No match found!` exactly
when no sent line parses and passes the filter, and prints its output otherwise. -/
theorem run_noMatch_iff (cfg : config) (lines : List Str)
    (h : ∀ l ∈ sentLines lines, panics cfg l = false) :
    ∃ out, run cfg lines = some out ∧
      (out = .noMatch ↔ included cfg (sentLines lines) = []) := by
  obtain ⟨s, h1, h2, _, _⟩ := scan_spec cfg lines Scan.init h
  have hseek : seeking Scan.init = true := rfl
  have hc0 : Scan.init.count = 0 := rfl
  rw [hseek, hc0, Nat.zero_add] at h2
  refine ⟨finish cfg s, by simp [run, h1], ?_⟩
  have hlen : s.count = 0 ↔ included cfg (sentLines lines) = [] := by
    rw [h2]; exact List.length_eq_zero
  rw [← hlen]
  unfold finish
  constructor
  · intro hf
    by_contra hne
    rw [if_neg hne] at hf
    split_ifs at hf
  · intro hz
    rw [if_pos hz]

set_option maxRecDepth 100000 in
set_option exponentiation.threshold 2000 in
/-- C17: the run can end in a panic, which is neither the no-match failure nor the output. In
table mode the line `05/03/23, AMAZON, x, 150.00, 0.00, y` parses and passes the filter, and
the run panics in the description slice; the line `05-03-23,AMAZON,x,1.00,0.00,y` does not
parse, no line passes, and the run panics in `fixDate` instead of reporting no match. -/
theorem C17_run_panics :
    (included config.init ["05/03/23, AMAZON, x, 150.00, 0.00, y".toList]).length = 1 ∧
    run config.init ["05/03/23, AMAZON, x, 150.00, 0.00, y".toList] = none ∧
    included config.init ["05-03-23,AMAZON,x,1.00,0.00,y".toList] = [] ∧
    run config.init ["05-03-23,AMAZON,x,1.00,0.00,y".toList] = none := by
  decide

set_option maxRecDepth 100000 in
set_option exponentiation.threshold 2000 in
/-- C18, as stated, fails: the debit field `-5.00` gives a transaction with the negative Debit
`-5`, and the credit field `NaN` gives a Credit that is not a number. -/
theorem C18_counterexample :
    getStatement "05/03/23,REFUND,x,-5.00,0.00,y".toList = .ok
      { Date := ⟨2023, 3, 5⟩, DateFmt := "05/03/2023".toList, Description := "REFUND".toList,
        Debit := F64.neg (F64.ofNat 5), Credit := F64.zero } ∧
    F64.geZero (F64.neg (F64.ofNat 5)) = false ∧
    F64.ltZero (F64.neg (F64.ofNat 5)) = true ∧
    getStatement "05/03/23,REFUND,x,1.00,NaN,y".toList = .ok
      { Date := ⟨2023, 3, 5⟩, DateFmt := "05/03/2023".toList, Description := "REFUND".toList,
        Debit := F64.ofNat 1, Credit := F64.nan } ∧
    F64.geZero F64.nan = false := by
  decide

/-- C18, amended: a transaction that `getStatement` returns holds in Debit and Credit what
`strconv.ParseFloat` reads from the trimmed fields 3 and 4; each amount is NaN or carries the
sign written in its field, so it is non-negative when the field does not begin with `-` and
is not NaN. -/
theorem C18_amount_sign (line : Str) (st : statement) (h : getStatement line = .ok st) :
    parseFloat (trimSpace ((splitOn ',' line).getD 3 [])) = .ok st.Debit ∧
    parseFloat (trimSpace ((splitOn ',' line).getD 4 [])) = .ok st.Credit ∧
    (st.Debit = F64.nan ∨
      st.Debit.signBit = startsWithMinus (trimSpace ((splitOn ',' line).getD 3 []))) ∧
    (st.Credit = F64.nan ∨
      st.Credit.signBit = startsWithMinus (trimSpace ((splitOn ',' line).getD 4 []))) ∧
    (startsWithMinus (trimSpace ((splitOn ',' line).getD 3 [])) = false →
      st.Debit ≠ F64.nan → st.Debit.geZero = true) ∧
    (startsWithMinus (trimSpace ((splitOn ',' line).getD 4 [])) = false →
      st.Credit ≠ F64.nan → st.Credit.geZero = true) := by
  obtain ⟨hd, hc⟩ := getStatement_ok_amounts line st h
  have sd := parseFloat_sign _ _ hd
  have sc := parseFloat_sign _ _ hc
  refine ⟨hd, hc, sd, sc, ?_, ?_⟩
  · intro hm hn
    rcases sd with h1 | h1
    · exact absurd h1 hn
    · exact geZero_of_signBit _ hn (by rw [h1, hm])
  · intro hm hn
    rcases sc with h1 | h1
    · exact absurd h1 hn
    · exact geZero_of_signBit _ hn (by rw [h1, hm])

set_option maxRecDepth 100000 in
set_option exponentiation.threshold 2000 in
/-- C18, amended, at the line `05/03/23, AMAZON PURCHASE, x, 150.00, 0.00, y`: no minus sign,
both amounts are non-negative. -/
theorem C18_amount_sign_witness :
    F64.geZero (F64.ofNat 150) = true ∧ F64.geZero F64.zero = true :=
  have h := C18_amount_sign "05/03/23, AMAZON PURCHASE, x, 150.00, 0.00, y".toList
    { Date := ⟨2023, 3, 5⟩, DateFmt := "05/03/2023".toList,
      Description := "AMAZON PURCHASE".toList, Debit := F64.ofNat 150, Credit := F64.zero }
    (by decide)
  ⟨h.2.2.2.2.1 (by decide) (by decide), h.2.2.2.2.2 (by decide) (by decide)⟩

/-! ## Option entries and date tokens -/

/-- C20: `fixDate` formats the first three slash-separated parts and drops the others: a
token `a/b/c/rest` gives `a/b/20c`, as the token `a/b/c` does, and two lines that differ only
in that their trimmed date fields are `a/b/c/rest` and `a/b/c` give the same result of
`getStatement`. -/
theorem C20_fixDate_extra_parts (a b c rest : Str)
    (ha : '/' ∉ a) (hb : '/' ∉ b) (hc : '/' ∉ c) :
    fixDate (a ++ '/' :: (b ++ '/' :: (c ++ '/' :: rest))) =
      some (a ++ '/' :: (b ++ '/' :: '2' :: '0' :: c)) ∧
    fixDate (a ++ '/' :: (b ++ '/' :: (c ++ '/' :: rest))) = fixDate (a ++ '/' :: (b ++ '/' :: c)) ∧
    ∀ (line1 line2 f0 g0 : Str) (fs : List Str),
      splitOn ',' line1 = f0 :: fs → splitOn ',' line2 = g0 :: fs →
      trimSpace f0 = a ++ '/' :: (b ++ '/' :: (c ++ '/' :: rest)) →
      trimSpace g0 = a ++ '/' :: (b ++ '/' :: c) →
      getStatement line1 = getStatement line2 := by
  have h1 : fixDate (a ++ '/' :: (b ++ '/' :: (c ++ '/' :: rest))) =
      some (a ++ '/' :: (b ++ '/' :: '2' :: '0' :: c)) := by
    simp [fixDate, splitOn_append _ _ _ ha, splitOn_append _ _ _ hb, splitOn_append _ _ _ hc]
  have h2 : fixDate (a ++ '/' :: (b ++ '/' :: c)) =
      some (a ++ '/' :: (b ++ '/' :: '2' :: '0' :: c)) := by
    simp [fixDate, splitOn_append _ _ _ ha, splitOn_append _ _ _ hb, splitOn_of_not_mem _ _ hc]
  refine ⟨h1, h1.trans h2.symm, ?_⟩
  intro line1 line2 f0 g0 fs hs1 hs2 hf hg
  simp only [getStatement, hs1, hs2, List.length_cons, List.getD_cons_zero,
    List.getD_cons_succ, hf, hg, h1, h2]

set_option maxRecDepth 100000 in
set_option exponentiation.threshold 2000 in
/-- C20 at the date fields `05/03/23/anything` and `05/03/23`. -/
theorem C20_fixDate_extra_parts_witness :
    fixDate "05/03/23/anything".toList = some "05/03/2023".toList ∧
    getStatement "05/03/23/anything, AMAZON PURCHASE, x, 150.00, 0.00, y".toList =
      getStatement "05/03/23, AMAZON PURCHASE, x, 150.00, 0.00, y".toList ∧
    getStatement "05/03/23, AMAZON PURCHASE, x, 150.00, 0.00, y".toList = .ok
      { Date := ⟨2023, 3, 5⟩, DateFmt := "05/03/2023".toList,
        Description := "AMAZON PURCHASE".toList, Debit := F64.ofNat 150, Credit := F64.zero } :=
  have h := C20_fixDate_extra_parts "05".toList "03".toList "23".toList "anything".toList
    (by decide) (by decide) (by decide)
  ⟨h.1,
   h.2.2 "05/03/23/anything, AMAZON PURCHASE, x, 150.00, 0.00, y".toList
     "05/03/23, AMAZON PURCHASE, x, 150.00, 0.00, y".toList
     "05/03/23/anything".toList "05/03/23".toList
     [" AMAZON PURCHASE".toList, " x".toList, " 150.00".toList, " 0.00".toList, " y".toList]
     (by decide) (by decide) (by decide) (by decide),
   by decide⟩

/-! ## Decimal numbers -/

theorem splitOn_ne_nil (sep : Char) (s : Str) : splitOn sep s ≠ [] := by
  induction s with
  | nil => simp [splitOn]
  | cons c cs ih =>
    by_cases hc : c = sep
    · simp [splitOn, hc]
    · cases h : splitOn sep cs <;> simp [splitOn, hc, h]

theorem splitOn_eq_singleton (sep : Char) (s a : Str) (h : splitOn sep s = [a]) : s = a := by
  induction s generalizing a with
  | nil => simp [splitOn] at h; exact h.symm
  | cons c cs ih =>
    by_cases hc : c = sep
    · simp only [splitOn, hc, if_true, List.cons.injEq] at h
      exact absurd h.2 (splitOn_ne_nil sep cs)
    · cases hs : splitOn sep cs with
      | nil => exact absurd hs (splitOn_ne_nil sep cs)
      | cons f fs =>
        simp only [splitOn, hc, if_false, hs, List.cons.injEq] at h
        obtain ⟨h1, h2⟩ := h
        rw [h2] at hs
        rw [← h1, ih f hs]

theorem splitOn_eq_pair (sep : Char) (s a b : Str) (h : splitOn sep s = [a, b]) :
    s = a ++ sep :: b := by
  induction s generalizing a with
  | nil => simp [splitOn] at h
  | cons c cs ih =>
    by_cases hc : c = sep
    · simp only [splitOn, hc, if_true, List.cons.injEq] at h
      obtain ⟨h1, h2⟩ := h
      rw [← h1, splitOn_eq_singleton sep cs b h2, hc]
      rfl
    · cases hs : splitOn sep cs with
      | nil => exact absurd hs (splitOn_ne_nil sep cs)
      | cons f fs =>
        simp only [splitOn, hc, if_false, hs, List.cons.injEq] at h
        obtain ⟨h1, h2⟩ := h
        rw [h2] at hs
        rw [← h1, ih f hs]
        rfl

theorem isDigit_bounds (c : Char) (h : isDigit c = true) : 48 ≤ c.toNat ∧ c.toNat ≤ 57 := by
  simpa [isDigit] using h

theorem lowerChar_of_isDigit (c : Char) (h : isDigit c = true) : lowerChar c = c := by
  have hb := isDigit_bounds c h
  unfold lowerChar
  rw [if_neg]
  omega

theorem isDigit_ne (c d : Char) (h : isDigit c = true) (hd : isDigit d = false) : c ≠ d := by
  rintro rfl
  rw [h] at hd
  cases hd

theorem allDigits_iff (s : Str) : allDigits s = true ↔ s ≠ [] ∧ ∀ c ∈ s, isDigit c = true := by
  cases s with
  | nil => simp [allDigits]
  | cons c cs => simp [allDigits]

/-- The shape of a decimal body: digits, or digits, a point and digits. -/
theorem isDecimalBody_shape (s : Str) (h : isDecimalBody s = true) :
    (allDigits s = true ∧ splitOn '.' s = [s]) ∨
    (∃ a b, s = a ++ '.' :: b ∧ allDigits a = true ∧ allDigits b = true ∧
      splitOn '.' s = [a, b]) := by
  unfold isDecimalBody at h
  split at h
  · rename_i a ha
    have := splitOn_eq_singleton '.' s a ha
    subst this
    exact Or.inl ⟨h, ha⟩
  · rename_i a b hab
    have hs := splitOn_eq_pair '.' s a b hab
    simp only [Bool.and_eq_true] at h
    exact Or.inr ⟨a, b, hs, h.1, h.2, hab⟩
  · cases h

/-- One digit in the digit loop of `readFloat`. -/
theorem readDigits_digit (c : Char) (cs : Str) (st : Digits) (hc : isDigit c = true) :
    readDigits false st (c :: cs) =
      readDigits false
        (if c = '0' ∧ st.nd = 0 then { st with sawdigits := true, dp := st.dp - 1 }
         else { st with sawdigits := true, nd := st.nd + 1,
                        mant := st.mant * 10 + digitVal c }) cs := by
  have h1 : c ≠ '_' := isDigit_ne c '_' hc (by decide)
  have h2 : c ≠ '.' := isDigit_ne c '.' hc (by decide)
  rw [readDigits, if_neg h1, if_neg h2, if_pos hc]
  simp only [Bool.false_eq_true, if_false]
  split_ifs <;> rfl

/-- A run of digits in the digit loop of `readFloat`: the mantissa takes the digits, and the
distance from the point to the end of the digits grows by their number. -/
theorem readDigits_digits (ds : Str) (hds : ∀ c ∈ ds, isDigit c = true) (rest : Str)
    (st : Digits) (hinv : st.nd = 0 → st.mant = 0) :
    ∃ st1 : Digits, readDigits false st (ds ++ rest) = readDigits false st1 rest ∧
      st1.mant = ds.foldl (fun a c => a * 10 + digitVal c) st.mant ∧
      st1.dp - (st1.nd : Int) = st.dp - (st.nd : Int) - (ds.length : Int) ∧
      st1.sawdot = st.sawdot ∧ st1.underscores = st.underscores ∧
      (st.sawdigits = true → st1.sawdigits = true) ∧
      (ds ≠ [] → st1.sawdigits = true) ∧ (st1.nd = 0 → st1.mant = 0) := by
  induction ds generalizing st with
  | nil => exact ⟨st, rfl, rfl, by simp, rfl, rfl, id, by simp, hinv⟩
  | cons c cs ih =>
    have hc : isDigit c = true := hds c (List.mem_cons_self _ _)
    have hcs : ∀ x ∈ cs, isDigit x = true := fun x hx => hds x (List.mem_cons_of_mem _ hx)
    rw [List.cons_append, readDigits_digit c _ st hc]
    by_cases hz : c = '0' ∧ st.nd = 0
    · rw [if_pos hz]
      have hm : st.mant = 0 := hinv hz.2
      obtain ⟨st1, e1, e2, e3, e4, e5, e6, _, e8⟩ :=
        ih hcs { st with sawdigits := true, dp := st.dp - 1 } hinv
      refine ⟨st1, e1, ?_, ?_, e4, e5, fun _ => e6 rfl, fun _ => e6 rfl, e8⟩
      · rw [e2, List.foldl_cons, hm, hz.1]
        rfl
      · rw [e3]
        simp only [List.length_cons]
        push_cast
        ring
    · rw [if_neg hz]
      obtain ⟨st1, e1, e2, e3, e4, e5, e6, _, e8⟩ :=
        ih hcs { st with sawdigits := true, nd := st.nd + 1,
                         mant := st.mant * 10 + digitVal c } (by simp)
      refine ⟨st1, e1, ?_, ?_, e4, e5, fun _ => e6 rfl, fun _ => e6 rfl, e8⟩
      · rw [e2, List.foldl_cons]
      · rw [e3]
        simp only [List.length_cons]
        push_cast
        ring

/-- On a text of digits and points the mantissa is not taken as hexadecimal. -/
theorem readMantissa_decimal_eq (neg : Bool) (s : Str)
    (h : ∀ c ∈ s, isDigit c = true ∨ c = '.') :
    readMantissa neg s =
      if !(readDigits false ⟨0, 0, 0, false, false, false⟩ s).1.sawdigits then none
      else
        readExponent neg false (readDigits false ⟨0, 0, 0, false, false, false⟩ s).1
          (if (readDigits false ⟨0, 0, 0, false, false, false⟩ s).1.sawdot
            then (readDigits false ⟨0, 0, 0, false, false, false⟩ s).1.dp
            else ((readDigits false ⟨0, 0, 0, false, false, false⟩ s).1.nd : Int))
          (readDigits false ⟨0, 0, 0, false, false, false⟩ s).2 := by
  rcases s with _ | ⟨a, _ | ⟨b, _ | ⟨c, tl⟩⟩⟩
  · unfold readMantissa
    simp only [Bool.false_eq_true, if_false]
  · unfold readMantissa
    simp only [Bool.false_eq_true, if_false]
  · unfold readMantissa
    simp only [Bool.false_eq_true, if_false]
  · have hb : lowerChar b ≠ 'x' := by
      rcases h b (by simp) with hd | hd
      · rw [lowerChar_of_isDigit b hd]
        exact isDigit_ne b 'x' hd (by decide)
      · rw [hd]; decide
    have hx : decide (a = '0' ∧ lowerChar b = 'x') = false := by simp [hb]
    unfold readMantissa
    simp only [hx, Bool.false_eq_true, if_false]

theorem readExponent_nil (neg : Bool) (d : Digits) (dp : Int) :
    readExponent neg false d dp [] =
      some ⟨neg, false, d.mant, dp - (d.nd : Int), d.underscores, []⟩ := by
  simp [readExponent]

theorem floatOfRead_int (neg : Bool) (m : Nat) (u : Bool) :
    floatOfRead ⟨neg, false, m, 0, u, []⟩ = F64.round neg m 1 := by
  show F64.round neg (m * 10 ^ 0) 1 = _
  rw [pow_zero, mul_one]

theorem floatOfRead_frac (neg : Bool) (m k : Nat) (u : Bool) (hk : 0 < k) :
    floatOfRead ⟨neg, false, m, -(k : Int), u, []⟩ = F64.round neg m (10 ^ k) := by
  obtain ⟨j, rfl⟩ : ∃ j, k = j + 1 := ⟨k - 1, by omega⟩
  have : -((j + 1 : Nat) : Int) = Int.negSucc j := rfl
  rw [this]
  rfl

/-- What `readFloat` reads from digits alone. -/
theorem readMantissa_digits (neg : Bool) (ip : Str) (hip : allDigits ip = true) :
    ∃ r, readMantissa neg ip = some r ∧ r.underscores = false ∧ r.rest = [] ∧
      floatOfRead r = F64.round neg (natOfDigits ip) 1 := by
  obtain ⟨hne, hd⟩ := (allDigits_iff ip).1 hip
  obtain ⟨st1, e1, e2, e3, e4, e5, _, e7, _⟩ :=
    readDigits_digits ip hd [] ⟨0, 0, 0, false, false, false⟩ (fun _ => rfl)
  rw [List.append_nil] at e1
  have er : readDigits false st1 [] = (st1, []) := rfl
  rw [er] at e1
  have hsd : st1.sawdigits = true := e7 hne
  have hdot : st1.sawdot = false := e4
  have hu : st1.underscores = false := e5
  rw [readMantissa_decimal_eq neg ip (fun c hc => Or.inl (hd c hc)), e1]
  simp only [hsd, hdot, Bool.not_true, Bool.false_eq_true, if_false, readExponent_nil,
    sub_self, hu]
  refine ⟨_, rfl, rfl, rfl, ?_⟩
  rw [floatOfRead_int, e2]
  rfl

/-- What `readFloat` reads from digits, a point and digits. -/
theorem readMantissa_point (neg : Bool) (ip fp : Str) (hip : allDigits ip = true)
    (hfp : allDigits fp = true) :
    ∃ r, readMantissa neg (ip ++ '.' :: fp) = some r ∧ r.underscores = false ∧ r.rest = [] ∧
      floatOfRead r = F64.round neg (natOfDigits (ip ++ fp)) (10 ^ fp.length) := by
  obtain ⟨hne, hd⟩ := (allDigits_iff ip).1 hip
  obtain ⟨hnf, hf⟩ := (allDigits_iff fp).1 hfp
  obtain ⟨st1, e1, e2, _, e4, e5, _, e7, e8⟩ :=
    readDigits_digits ip hd ('.' :: fp) ⟨0, 0, 0, false, false, false⟩ (fun _ => rfl)
  have hpt : readDigits false st1 ('.' :: fp) =
      readDigits false { st1 with sawdot := true, dp := st1.nd } fp := by
    have h1 : ('.' : Char) ≠ '_' := by decide
    have h4 : st1.sawdot = false := e4
    rw [readDigits, if_neg h1, if_pos rfl, h4]
    simp only [Bool.false_eq_true, if_false]
  obtain ⟨st2, f1, f2, f3, f4, f5, f6, _, _⟩ :=
    readDigits_digits fp hf [] { st1 with sawdot := true, dp := st1.nd } e8
  rw [List.append_nil] at f1
  have er : readDigits false st2 [] = (st2, []) := rfl
  rw [er] at f1
  have hall : readDigits false ⟨0, 0, 0, false, false, false⟩ (ip ++ '.' :: fp) = (st2, []) := by
    rw [e1, hpt, f1]
  have hsd : st2.sawdigits = true := f6 (e7 hne)
  have hdot : st2.sawdot = true := f4
  have hu : st2.underscores = false := by rw [f5]; exact e5
  have hchars : ∀ c ∈ ip ++ '.' :: fp, isDigit c = true ∨ c = '.' := by
    intro c hc
    rcases List.mem_append.1 hc with h | h
    · exact Or.inl (hd c h)
    · rcases List.mem_cons.1 h with h | h
      · exact Or.inr h
      · exact Or.inl (hf c h)
  have hexp : st2.dp - (st2.nd : Int) = -(fp.length : Int) := by
    rw [f3]; simp
  rw [readMantissa_decimal_eq neg _ hchars, hall]
  simp only [hsd, hdot, Bool.not_true, Bool.false_eq_true, if_false, if_true, readExponent_nil,
    hexp, hu]
  refine ⟨_, rfl, rfl, rfl, ?_⟩
  have hlen : 0 < fp.length := List.length_pos.2 hnf
  rw [floatOfRead_frac neg _ _ _ hlen, f2]
  simp only [e2, natOfDigits, List.foldl_append]

/-- What `readFloat` reads from a decimal body is the number it denotes. -/
theorem readMantissa_decimal (neg : Bool) (body : Str) (hb : isDecimalBody body = true) :
    ∃ r, readMantissa neg body = some r ∧ r.underscores = false ∧ r.rest = [] ∧
      floatOfRead r =
        (match splitOn '.' body with
          | [a, b] => F64.round neg (natOfDigits (a ++ b)) (10 ^ b.length)
          | _ => F64.round neg (natOfDigits body) 1) := by
  rcases isDecimalBody_shape body hb with ⟨hd, hs⟩ | ⟨a, b, rfl, ha, hbb, hs⟩
  · rw [hs]
    exact readMantissa_digits neg body hd
  · rw [hs]
    exact readMantissa_point neg a b ha hbb

theorem isDecimalBody_head (body : Str) (hb : isDecimalBody body = true) :
    ∃ d tl, body = d :: tl ∧ isDigit d = true := by
  rcases isDecimalBody_shape body hb with ⟨hd, _⟩ | ⟨a, b, rfl, ha, _, _⟩
  · obtain ⟨hne, hall⟩ := (allDigits_iff body).1 hd
    cases body with
    | nil => exact absurd rfl hne
    | cons d tl => exact ⟨d, tl, rfl, hall d (List.mem_cons_self _ _)⟩
  · obtain ⟨hne, hall⟩ := (allDigits_iff a).1 ha
    cases a with
    | nil => exact absurd rfl hne
    | cons d tl => exact ⟨d, tl ++ '.' :: b, rfl, hall d (List.mem_cons_self _ _)⟩

theorem specialInf_digit (neg : Bool) (k : Nat) (d : Char) (tl : Str) (hd : isDigit d = true) :
    specialInf neg k (d :: tl) = none := by
  have h : lowerChar d ≠ 'i' := by
    rw [lowerChar_of_isDigit d hd]
    exact isDigit_ne d 'i' hd (by decide)
  have h0 : commonPrefixLenIgnoreCase (d :: tl) "infinity".toList = 0 := by
    show (if lowerChar d = 'i' then _ else 0) = 0
    rw [if_neg h]
  unfold specialInf
  simp only [h0]
  simp

theorem special_digit (d : Char) (tl : Str) (hd : isDigit d = true) :
    special (d :: tl) = none := by
  have h1 : d ≠ '+' := isDigit_ne d '+' hd (by decide)
  have h2 : d ≠ '-' := isDigit_ne d '-' hd (by decide)
  have h3 : ¬ (d = 'i' ∨ d = 'I') := by
    rintro (h | h)
    · exact isDigit_ne d 'i' hd (by decide) h
    · exact isDigit_ne d 'I' hd (by decide) h
  have h4 : ¬ (d = 'n' ∨ d = 'N') := by
    rintro (h | h)
    · exact isDigit_ne d 'n' hd (by decide) h
    · exact isDigit_ne d 'N' hd (by decide) h
  rw [special, if_neg h1, if_neg h2, if_neg h3, if_neg h4]

/-- The end of `strconv.ParseFloat` once `readFloat` has read the whole text without
underscores. -/
theorem parseFloat_of_read (s : Str) (r : ReadFloat) (hsp : special s = none)
    (hr : readFloat s = some r) (hu : r.underscores = false) (hrest : r.rest = []) :
    parseFloat s = if (floatOfRead r).2 = true then .error .errRange else .ok (floatOfRead r).1 := by
  unfold parseFloat
  simp only [hsp, hr, hu, hrest, Bool.false_and, Bool.false_eq_true, if_false, ne_eq,
    not_true_eq_false]

/-- A decimal number is read by `strconv.ParseFloat` as the nearest `float64`, or refused with
the range error when it is beyond the `float64` range. -/
theorem parseFloat_decimal (s : Str) (h : isDecimalNumber s = true) :
    parseFloat s =
      if (decimalFloat s).2 = true then .error .errRange else .ok (decimalFloat s).1 := by
  cases s with
  | nil => simp [isDecimalNumber] at h
  | cons c cs =>
    by_cases hsign : c = '+' ∨ c = '-'
    · have hb : isDecimalBody cs = true := by
        simpa [isDecimalNumber, hsign] using h
      obtain ⟨d, tl, hcs, hd⟩ := isDecimalBody_head cs hb
      obtain ⟨r, hr, hu, hrest, hv⟩ := readMantissa_decimal (startsWithMinus (c :: cs)) cs hb
      have hdf : decimalFloat (c :: cs) = floatOfRead r := by
        rw [hv]
        simp only [decimalFloat, unsigned, if_pos hsign]
      have hsp : special (c :: cs) = none := by
        rcases hsign with hc | hc
        · rw [special, if_pos hc, hcs]; exact specialInf_digit _ _ d tl hd
        · have h1 : c ≠ '+' := by rw [hc]; decide
          rw [special, if_neg h1, if_pos hc, hcs]; exact specialInf_digit _ _ d tl hd
      have hrf : readFloat (c :: cs) = some r := by
        rcases hsign with hc | hc
        · rw [readFloat, if_pos hc]
          have : startsWithMinus (c :: cs) = false := by rw [hc]; rfl
          rw [this] at hr; exact hr
        · have h1 : c ≠ '+' := by rw [hc]; decide
          rw [readFloat, if_neg h1, if_pos hc]
          have : startsWithMinus (c :: cs) = true := by rw [hc]; rfl
          rw [this] at hr; exact hr
      rw [hdf]
      exact parseFloat_of_read _ r hsp hrf hu hrest
    · have hb : isDecimalBody (c :: cs) = true := by
        simpa [isDecimalNumber, hsign] using h
      obtain ⟨d, tl, hcs, hd⟩ := isDecimalBody_head (c :: cs) hb
      have hcd : c = d := (List.cons.inj hcs).1
      have h1 : c ≠ '+' := fun e => hsign (Or.inl e)
      have h2 : c ≠ '-' := fun e => hsign (Or.inr e)
      have hneg : startsWithMinus (c :: cs) = false := by
        simp [startsWithMinus, h2]
      obtain ⟨r, hr, hu, hrest, hv⟩ := readMantissa_decimal false (c :: cs) hb
      have hdf : decimalFloat (c :: cs) = floatOfRead r := by
        rw [hv]
        simp only [decimalFloat, unsigned, if_neg hsign, hneg]
      have hsp : special (c :: cs) = none := by
        rw [hcd]; exact special_digit d cs hd
      have hrf : readFloat (c :: cs) = some r := by
        rw [readFloat, if_neg h1, if_neg h2]; exact hr
      rw [hdf]
      exact parseFloat_of_read _ r hsp hrf hu hrest

set_option maxRecDepth 100000 in
set_option exponentiation.threshold 2000 in
/-- C2, as stated, fails: the debit field `1` followed by 309 zeros is a decimal number, the
date token and the credit field are valid, yet `getStatement` returns the range error of
`strconv.ParseFloat` and no transaction. -/
theorem C2_counterexample :
    isDecimalNumber ('1' :: List.replicate 309 '0') = true ∧
    isDecimalNumber "0.00".toList = true ∧
    splitOn ',' ("05/03/23,AMAZON,x,".toList ++ ('1' :: List.replicate 309 '0') ++
        ",0.00,y".toList) =
      ["05/03/23".toList, "AMAZON".toList, "x".toList, '1' :: List.replicate 309 '0',
       "0.00".toList, "y".toList] ∧
    getStatement ("05/03/23,AMAZON,x,".toList ++ ('1' :: List.replicate 309 '0') ++
        ",0.00,y".toList) = .err (.num .errRange) := by
  decide

/-- C2, amended: a line with at least six comma-separated fields, whose trimmed field 0 is a
valid `DD/MM/YY` date and whose trimmed fields 3 and 4 are decimal numbers within the
`float64` range, gives a transaction with the trimmed field 1 as Description, the `float64`
nearest to the decimal numbers of the trimmed fields 3 and 4 as Debit and Credit, `DD/MM/20YY`
as DateFmt and that calendar date as Date; the fields 2, 5 and those past the sixth do not
occur in the result. -/
theorem C2_getStatement_ok (line f0 f1 f2 f3 f4 f5 : Str) (rest : List Str)
    (d1 d2 m1 m2 y1 y2 : Char)
    (hsplit : splitOn ',' line = f0 :: f1 :: f2 :: f3 :: f4 :: f5 :: rest)
    (hdate : trimSpace f0 = [d1, d2, '/', m1, m2, '/', y1, y2])
    (hd1 : isDigit d1 = true) (hd2 : isDigit d2 = true)
    (hm1 : isDigit m1 = true) (hm2 : isDigit m2 = true)
    (hy1 : isDigit y1 = true) (hy2 : isDigit y2 = true)
    (hmonth : 1 ≤ digitVal m1 * 10 + digitVal m2 ∧ digitVal m1 * 10 + digitVal m2 ≤ 12)
    (hday : 1 ≤ digitVal d1 * 10 + digitVal d2 ∧
      digitVal d1 * 10 + digitVal d2 ≤
        daysIn (digitVal m1 * 10 + digitVal m2) (2000 + (digitVal y1 * 10 + digitVal y2)))
    (hdebit : isDecimalNumber (trimSpace f3) = true)
    (hdebitRange : (decimalFloat (trimSpace f3)).2 = false)
    (hcredit : isDecimalNumber (trimSpace f4) = true)
    (hcreditRange : (decimalFloat (trimSpace f4)).2 = false) :
    getStatement line = .ok
      { Date := ⟨2000 + (digitVal y1 * 10 + digitVal y2), digitVal m1 * 10 + digitVal m2,
                 digitVal d1 * 10 + digitVal d2⟩,
        DateFmt := [d1, d2, '/', m1, m2, '/', '2', '0', y1, y2],
        Description := trimSpace f1,
        Debit := (decimalFloat (trimSpace f3)).1,
        Credit := (decimalFloat (trimSpace f4)).1 } := by
  have h3 : parseFloat (trimSpace f3) = .ok (decimalFloat (trimSpace f3)).1 := by
    rw [parseFloat_decimal _ hdebit, hdebitRange]
    rfl
  have h4 : parseFloat (trimSpace f4) = .ok (decimalFloat (trimSpace f4)).1 := by
    rw [parseFloat_decimal _ hcredit, hcreditRange]
    rfl
  exact getStatement_ok_of_parse line f0 f1 f2 f3 f4 f5 rest d1 d2 m1 m2 y1 y2 _ _
    hsplit hdate hd1 hd2 hm1 hm2 hy1 hy2 hmonth hday h3 h4

set_option maxRecDepth 100000 in
set_option exponentiation.threshold 2000 in
/-- C2, amended, at the line `05/03/23, AMAZON PURCHASE, x, 150.00, -0.10, y`: the Debit is
150, and the Credit is the `float64` nearest to -0.1. -/
theorem C2_getStatement_ok_witness :
    getStatement "05/03/23, AMAZON PURCHASE, x, 150.00, -0.10, y".toList = .ok
      { Date := ⟨2023, 3, 5⟩, DateFmt := "05/03/2023".toList,
        Description := "AMAZON PURCHASE".toList,
        Debit := F64.fin false 5277655813324800 (-45),
        Credit := F64.fin true 7205759403792794 (-56) } :=
  C2_getStatement_ok "05/03/23, AMAZON PURCHASE, x, 150.00, -0.10, y".toList
    "05/03/23".toList " AMAZON PURCHASE".toList " x".toList " 150.00".toList " -0.10".toList
    " y".toList [] '0' '5' '0' '3' '2' '3'
    (by decide) (by decide) (by decide) (by decide) (by decide) (by decide) (by decide)
    (by decide) (by decide) (by decide) (by decide) (by decide) (by decide) (by decide)

end HdfcSt
